import Mathlib

/-!
Shallow embedding of `src/library_functions.py` from the repository
`markettiming_vs_monthly_savingsplan`.

Pandas dataframes become `List Row`; a column that may hold NaN becomes an
`Option ℚ` field (NaN ↦ `none`), and NaN-propagating arithmetic becomes the
`omul` / `osub` helpers.  Prices and money are modelled as rationals.  The
positional index of a row in the list plays the role of the dataframe's
`RangeIndex` after `reset_index`.  Python `assert` failures become
`Except.error` values.
-/

/-- A calendar date, ordered lexicographically by (year, month, day). -/
structure SimpleDate where
  y : Int
  m : Int
  d : Int
deriving DecidableEq, Inhabited

/-- Lexicographic comparison of dates (used for `df.loc[start:end]` slicing). -/
def dateLE (a b : SimpleDate) : Bool :=
  a.y < b.y || (a.y == b.y && (a.m < b.m || (a.m == b.m && a.d ≤ b.d)))

/-- Embeds `relativedelta(years=n)`: shift a date by `n` calendar years. -/
def addYears (dt : SimpleDate) (n : Int) : SimpleDate :=
  ⟨dt.y + n, dt.m, dt.d⟩

/-- One row of the dataframe.  Input columns: `Date` (with derived `year`,
`month`), `Open`, `High`, `Adj Close`.  Derived columns (possibly NaN before
their producing stage runs): `moving_max`, `percent_drop`, `capital`,
`buy`, `investment_percent`, `investment_amount`, `cash`, `share_amount`. -/
structure Row where
  date : SimpleDate
  Open : ℚ
  High : ℚ
  AdjClose : ℚ
  movingMax : Option ℚ := none
  percentDrop : Option ℚ := none
  capital : Option ℚ := none
  buy : Bool := false
  investmentPercent : Option ℚ := none
  investmentAmount : Option ℚ := none
  cash : Option ℚ := none
  shareAmount : ℚ := 0
deriving DecidableEq, Inhabited

/-- NaN-propagating multiplication on optional rationals. -/
def omul : Option ℚ → Option ℚ → Option ℚ
  | some a, some b => some (a * b)
  | _, _ => none

/-- NaN-propagating subtraction on optional rationals. -/
def osub : Option ℚ → Option ℚ → Option ℚ
  | some a, some b => some (a - b)
  | _, _ => none

/-- Embeds `Series.max()`: `none` on the empty list (pandas NaN), else the maximum. -/
def listMax : List ℚ → Option ℚ
  | [] => none
  | x :: xs => some ((listMax xs).elim x (max x))

/-- Column getters, reading a row by position (out-of-range reads the
default row; all uses are guarded by length facts). -/
def buyAt (rows : List Row) (n : ℕ) : Bool := (rows.getD n default).buy

def ipAt (rows : List Row) (n : ℕ) : Option ℚ := (rows.getD n default).investmentPercent

def iaAt (rows : List Row) (n : ℕ) : Option ℚ := (rows.getD n default).investmentAmount

def cashAt (rows : List Row) (n : ℕ) : Option ℚ := (rows.getD n default).cash

def pdAt (rows : List Row) (n : ℕ) : Option ℚ := (rows.getD n default).percentDrop

def capAt (rows : List Row) (n : ℕ) : Option ℚ := (rows.getD n default).capital

def openAt (rows : List Row) (n : ℕ) : ℚ := (rows.getD n default).Open

def shareAt (rows : List Row) (n : ℕ) : ℚ := (rows.getD n default).shareAmount

/-- Embeds `df.loc[n, col] = v`: modify the row at position `n` (no-op out of range). -/
def modifyIdx (f : Row → Row) : ℕ → List Row → List Row
  | _, [] => []
  | 0, r :: rs => f r :: rs
  | n + 1, r :: rs => r :: modifyIdx f n rs

/-- Embeds `df.loc[n:, col] = ...`: modify every row from position `n` on. -/
def mapFrom (f : Row → Row) : ℕ → List Row → List Row
  | 0, rs => rs.map f
  | _ + 1, [] => []
  | n + 1, r :: rs => r :: mapFrom f n rs

def setBuy (n : ℕ) (rows : List Row) : List Row :=
  modifyIdx (fun r => { r with buy := true }) n rows

def setIP (n : ℕ) (v : Option ℚ) (rows : List Row) : List Row :=
  modifyIdx (fun r => { r with investmentPercent := v }) n rows

def setIA (n : ℕ) (v : Option ℚ) (rows : List Row) : List Row :=
  modifyIdx (fun r => { r with investmentAmount := v }) n rows

def subCashFrom (n : ℕ) (amt : Option ℚ) (rows : List Row) : List Row :=
  mapFrom (fun r => { r with cash := osub r.cash amt }) n rows

/-! ### get_horizon_start_end (source lines 48-66) -/

/-- Embeds `get_horizon_start_end`: shift the series start by `year_start` years to
get the horizon start, then by `horizon_length` years to get the horizon end.
The source performs no validation of either argument. -/
def get_horizon_start_end (start_date : SimpleDate) (year_start : Int)
    (horizon_length : Int) : SimpleDate × SimpleDate :=
  let horizon_start := addYears start_date year_start
  let horizon_end := addYears horizon_start horizon_length
  (horizon_start, horizon_end)

/-! ### compute_moving_max (source lines 68-85) -/

/-- Embeds `df.High.rolling(window_size).max()` at position `i`: the max of the `w`
highs ending at `i`, NaN while fewer than `w` observations are available. -/
def rollingMaxAt (highs : List ℚ) (w i : ℕ) : Option ℚ :=
  if w ≤ i + 1 then listMax ((highs.take (i + 1)).drop (i + 1 - w)) else none

/-- The highs of the rows whose `moving_max` is still NaN
(`df[df.moving_max.isnull()].High`). -/
def nullHighs : List ℚ → List (Option ℚ) → List ℚ
  | [], _ => []
  | _ :: _, [] => []
  | h :: hs, m :: ms =>
    match m with
    | none => h :: nullHighs hs ms
    | some _ => nullHighs hs ms

/-- The fill loop of `compute_moving_max`: for each index in `idxs` (the
initially-null positions in reverse order), overwrite that position with the
max high among the rows that are *currently* still null. -/
def fillNulls (highs : List ℚ) : List (Option ℚ) → List ℕ → List (Option ℚ)
  | mm, [] => mm
  | mm, idx :: rest =>
    fillNulls highs (mm.set idx (listMax (nullHighs highs mm))) rest

/-- The `moving_max` column produced by `compute_moving_max` for a given
column of highs. -/
def movingMaxColumn (highs : List ℚ) (w : ℕ) : List (Option ℚ) :=
  let mm0 := (List.range highs.length).map (rollingMaxAt highs w)
  let nulls := ((List.range highs.length).filter
    (fun i => mm0.getD i none = Option.none)).reverse
  fillNulls highs mm0 nulls

/-- Embeds `compute_moving_max`: annotate each row with the `moving_max` column. -/
def compute_moving_max (rows : List Row) (window_size : ℕ) : List Row :=
  List.zipWith (fun r m => { r with movingMax := m }) rows
    (movingMaxColumn (rows.map Row.High) window_size)

/-! ### compute_percent_drop (source lines 87-98) -/

/-- Embeds `compute_percent_drop` on one row: `percent_drop = 1 - AdjClose /
moving_max`, NaN where `moving_max` is NaN. -/
def pdRow (r : Row) : Row :=
  { r with percentDrop := r.movingMax.map (fun mx => 1 - r.AdjClose / mx) }

/-- Embeds `compute_percent_drop`: derive the `percent_drop` column from the
`moving_max` column already present on the dataframe (the moving max is
read, never recomputed here). -/
def compute_percent_drop (rows : List Row) : List Row :=
  rows.map pdRow

/-! ### assign_available_capital (source lines 100-115) -/

/-- Dates `a` and `b` fall in the same (year, month) group. -/
def sameMonth (a b : Row) : Bool :=
  a.date.y == b.date.y && a.date.m == b.date.m

/-- Row `i` is the first row of its (year, month) group, i.e. the first
trading day of its calendar month (`df.groupby(["year","month"]).Date.first()`). -/
def isMonthFirst (rows : List Row) (i : ℕ) : Bool :=
  (rows.take i).all (fun r => !sameMonth r (rows.getD i default))

/-- Helper for `assign_available_capital`: walk the rows carrying the running
cumulative capital (`cumsum` of the monthly credits, forward-filled). -/
def assignCapAux (all : List Row) (ms : ℚ) : ℕ → Option ℚ → List Row → List Row
  | _, _, [] => []
  | i, acc, r :: rs =>
    let acc' := if isMonthFirst all i then some (acc.getD 0 + ms) else acc
    { r with capital := acc' } :: assignCapAux all ms (i + 1) acc' rs

/-- Embeds `assign_available_capital`: credit `monthly_savings` on the first trading
day of every month; `capital` is the running total, forward-filled. -/
def assign_available_capital (rows : List Row) (monthly_savings : ℚ) : List Row :=
  assignCapAux rows monthly_savings 0 none rows

/-! ### create_monthly_investment_plan (source lines 117-147) -/

/-- Helper for `create_monthly_investment_plan`: build the plan rows carrying
the running `investment_amount.cumsum()` used for the `cash` column. -/
def monthlyAux (all : List Row) (p c0 : ℚ) : ℕ → ℚ → List Row → List Row
  | _, _, [] => []
  | i, csum, r :: rs =>
    let isF := isMonthFirst all i
    let ia : ℚ := if isF then c0 * p else 0
    let csum' := csum + ia
    { r with
        buy := isF && decide (p > 0),
        investmentPercent := some (if isF then p else 0),
        investmentAmount := some ia,
        cash := r.capital.map (fun c => c - csum') } ::
      monthlyAux all p c0 (i + 1) csum' rs

/-- Embeds `create_monthly_investment_plan`: on every first trading day of a month
buy with percentage `p`; the amount is the first non-null capital value times
`p`; `cash = capital - investment_amount.cumsum()`.  Raises when `p` is
outside `[0, 1]`, or when no row has a non-null capital (`.iloc[0]` on an
empty selection). -/
def create_monthly_investment_plan (rows : List Row) (p : ℚ) :
    Except String (List Row) :=
  if 0 ≤ p ∧ p ≤ 1 then
    match (rows.filterMap (fun r => r.capital)).head? with
    | none => .error "IndexError"
    | some c0 => .ok (monthlyAux rows p c0 0 0 rows)
  else .error "perc_monthly_invest must be within 0 and 1"

/-! ### create_drop_threshold_investment_plan (source lines 149-202) -/

/-- The trigger indices: positions whose `percent_drop` is at least the
threshold (`df[df.percent_drop >= perc_drop_threshold]`; a NaN compares
false).  The loop iterates over a snapshot of these taken before any buy. -/
def triggerIdxs (rows : List Row) (thr : ℚ) : List ℕ :=
  (List.range rows.length).filter
    (fun i => ((pdAt rows i).map (fun v => decide (thr ≤ v))).getD false)

/-- The investment percentage written by an executed drawdown buy at trigger
`t`: `np.minimum(1, percent_drop * drop_multiplier)` (NaN-propagating). -/
def execIP (dm : Int) (t : ℕ) (rows : List Row) : Option ℚ :=
  (pdAt rows t).map (fun v => min 1 (v * (dm : ℚ)))

/-- The amount written by an executed drawdown buy at trigger `t`: the cash
of day `t + 1` *before* the subtraction, times the investment percentage. -/
def execAmt (dm : Int) (t : ℕ) (rows : List Row) : Option ℚ :=
  omul (cashAt (setIP (t + 1) (execIP dm t rows) (setBuy (t + 1) rows)) (t + 1))
    (execIP dm t rows)

/-- The loop body of an executed drawdown buy at trigger `t`: set
`buy(t+1) := True`, write the investment percentage and amount, and subtract
the amount from `cash` on day `t + 1` and every later day. -/
def execStep (dm : Int) (t : ℕ) (rows : List Row) : List Row :=
  let rows1 := setIP (t + 1) (execIP dm t rows) (setBuy (t + 1) rows)
  subCashFrom (t + 1) (execAmt dm t rows)
    (setIA (t + 1) (execAmt dm t rows) rows1)

/-- The scan of `create_drop_threshold_investment_plan`: walk the trigger
indices carrying `last_buy` (initially `-waiting_days`).  An eligible,
non-suppressed trigger at `t` executes `execStep` and records
`last_buy := t`.  Besides the updated rows, the executed trigger indices are
returned for reasoning. -/
def dropLoop (mode : String) (wd dm li : Int) :
    List ℕ → Int → List Row → List Row × List ℕ
  | [], _, rows => (rows, [])
  | t :: rest, lb, rows =>
    if wd ≤ (t : Int) - lb ∧ (t : Int) ≠ li then
      if mode = "hybrid_strategy" ∧ buyAt rows (t + 1) = true then
        dropLoop mode wd dm li rest lb rows
      else
        let res := dropLoop mode wd dm li rest (t : Int) (execStep dm t rows)
        (res.1, t :: res.2)
    else
      dropLoop mode wd dm li rest lb rows

/-- Embeds `create_drop_threshold_investment_plan`: validate the drawdown-leg
parameters, then run the trigger scan with `last_buy = -waiting_days` and
`last_idx = df.index[-1]` (reading `df.index[-1]` on an empty frame raises). -/
def create_drop_threshold_investment_plan (rows : List Row) (mode : String)
    (perc_drop_threshold : ℚ) (waiting_days drop_multiplier : Int) :
    Except String (List Row) :=
  if ¬(0 ≤ perc_drop_threshold ∧ perc_drop_threshold ≤ 1) then
    .error "perc_drop_threshold must be within 0 and 1"
  else if ¬(1 ≤ waiting_days) then
    .error "waiting_days must be a positive int"
  else if ¬(1 ≤ drop_multiplier) then
    .error "drop_multiplier must be a positive int"
  else if rows.isEmpty then
    .error "IndexError"
  else
    .ok (dropLoop mode waiting_days drop_multiplier ((rows.length : Int) - 1)
      (triggerIdxs rows perc_drop_threshold) (-waiting_days) rows).1

/-! ### determine_buy_and_investment_amount (source lines 204-245) -/

def strategyModes : List String :=
  ["monthly_invest_strategy", "markettiming_strategy", "hybrid_strategy"]

/-- The final fills of `determine_buy_and_investment_amount` on one row:
`investment_percent` and `investment_amount` get their NaNs replaced by 0 and
`share_amount = investment_amount / Open` is computed. -/
def finalizeRow (r : Row) : Row :=
  let ia := r.investmentAmount.getD 0
  { r with
      investmentPercent := some (r.investmentPercent.getD 0),
      investmentAmount := some ia,
      shareAmount := ia / r.Open }

/-- The final fills of `determine_buy_and_investment_amount` (lines 241-243). -/
def finalizePlan (rows : List Row) : List Row :=
  rows.map finalizeRow

/-- Embeds `determine_buy_and_investment_amount`: check the mode, force
`perc_monthly_invest` to 1 (monthly) or 0 (markettiming), then run the
monthly leg alone when the effective percentage is 1, otherwise the monthly
leg followed by the drawdown leg; finally fill the remaining NaNs and compute
`share_amount`. -/
def determine_buy_and_investment_amount (rows : List Row) (mode : String)
    (perc_monthly_invest perc_drop_threshold : ℚ)
    (waiting_days drop_multiplier : Int) : Except String (List Row) :=
  if mode ∈ strategyModes then
    let pmi := if mode = "monthly_invest_strategy" then 1
      else if mode = "markettiming_strategy" then 0
      else perc_monthly_invest
    if pmi = 1 then
      (create_monthly_investment_plan rows pmi).map finalizePlan
    else
      match create_monthly_investment_plan rows pmi with
      | .error e => .error e
      | .ok r1 =>
        (create_drop_threshold_investment_plan r1 mode perc_drop_threshold
          waiting_days drop_multiplier).map finalizePlan
  else .error "mode must be one of the three strategies"

/-! ### create_investment_plan (source lines 247-286) -/

/-- Embeds `create_investment_plan`: select the horizon, slice the series to it
(`df.loc[horizon_start:horizon_end]`, which simply truncates at the series
end), derive `percent_drop` from the *pre-existing* `moving_max` column
(`compute_moving_max` is never called here), accrue the available capital and
run the planner. -/
def create_investment_plan (rows : List Row) (start_date : SimpleDate)
    (year_start horizon_length : Int) (mode : String) (monthly_savings : ℚ)
    (perc_monthly_invest perc_drop_threshold : ℚ)
    (waiting_days drop_multiplier : Int) : Except String (List Row) :=
  let hse := get_horizon_start_end start_date year_start horizon_length
  let dfh := rows.filter (fun r => dateLE hse.1 r.date && dateLE r.date hse.2)
  let dfp := compute_percent_drop dfh
  let plan := assign_available_capital dfp monthly_savings
  determine_buy_and_investment_amount plan mode perc_monthly_invest
    perc_drop_threshold waiting_days drop_multiplier

/-! ### compute_roi (source lines 288-306) -/

/-- One row of the per-year evaluation produced by `compute_roi`. -/
structure YearRoi where
  year : Int
  portfolio : ℚ
  invested : ℚ
  win : ℚ
  roi : ℚ
deriving DecidableEq, Inhabited

/-- The rows of the (year = `y`) group, in dataframe order. -/
def groupRows (rows : List Row) (y : Int) : List Row :=
  rows.filter (fun r => r.date.y == y)

/-- Embeds `groupby("year").share_amount.sum()` for one year. -/
def groupShareSum (rows : List Row) (y : Int) : ℚ :=
  ((groupRows rows y).map Row.shareAmount).sum

/-- Embeds `groupby("year").investment_amount.sum()` for one year. -/
def groupInvSum (rows : List Row) (y : Int) : ℚ :=
  ((groupRows rows y).map (fun r => r.investmentAmount.getD 0)).sum

/-- Embeds `groupby("year").Open.tail(1)` for one year: the last recorded open. -/
def groupLastOpen (rows : List Row) (y : Int) : ℚ :=
  ((groupRows rows y).map Row.Open).getLast?.getD 0

/-- The distinct years of the plan, sorted ascending (pandas `groupby`
sorts the group keys). -/
def sortedYears (rows : List Row) : List Int :=
  ((rows.map (fun r => r.date.y)).dedup).insertionSort (· ≤ ·)

/-- The cumulative-sum scan of `compute_roi`, carrying the running share and
investment totals across the sorted years. -/
def roiAux (rows : List Row) : List Int → ℚ → ℚ → List YearRoi
  | [], _, _ => []
  | y :: ys, accS, accI =>
    let accS' := accS + groupShareSum rows y
    let accI' := accI + groupInvSum rows y
    let pf := accS' * groupLastOpen rows y
    let win := pf - accI'
    ⟨y, pf, accI', win, win / accI'⟩ :: roiAux rows ys accS' accI'

/-- Embeds `compute_roi`: per year, the portfolio value (cumulative shares times the
last open of the year), the cumulative invested amount, their difference and
the return on investment. -/
def compute_roi (rows : List Row) : List YearRoi :=
  roiAux rows (sortedYears rows) 0 0

/-! ## Auxiliary definitions for the statements -/

/-- The `moving_max` entry of a row, by position. -/
def mmAt (rows : List Row) (n : ℕ) : Option ℚ := (rows.getD n default).movingMax

/-- Extract the plan from a successful planner run (empty on error). -/
def okPlan : Except String (List Row) → List Row
  | .ok l => l
  | .error _ => []

/-- Embeds `investment_amount.cumsum()` over the first `k` records (a NaN counts
as 0, matching the final `fillna(0)`). -/
def iaSum (rows : List Row) (k : ℕ) : ℚ :=
  ((List.range k).map (fun j => (iaAt rows j).getD 0)).sum

/-- The ledger invariant of the spec:
`cash_t = availableCapital_t - cumulativeInvestmentAmount_t` on every row. -/
def planInv (rows : List Row) : Prop :=
  ∀ i, i < rows.length → cashAt rows i = (capAt rows i).map (fun c => c - iaSum rows (i + 1))

/-- The monthly-leg investment amount of row `i`. -/
def monthlyVal (all : List Row) (p c0 : ℚ) (i : ℕ) : ℚ :=
  if isMonthFirst all i then c0 * p else 0

/-- Partial sums of the monthly-leg investment amounts. -/
def monthlyCum (all : List Row) (p c0 : ℚ) (i k : ℕ) : ℚ :=
  ((List.range k).map (fun j => monthlyVal all p c0 (i + j))).sum

/-- A minimal input row (open = high = adjusted close). -/
def mkRow (y m d : Int) (o : ℚ) : Row :=
  { date := ⟨y, m, d⟩, Open := o, High := o, AdjClose := o }

/-- A row with a preset `percent_drop` annotation. -/
def mkRowPD (y m d : Int) (o : ℚ) (p : Option ℚ) : Row :=
  { date := ⟨y, m, d⟩, Open := o, High := o, AdjClose := o, percentDrop := p }

/-- The three-record horizon of the end-to-end example: opens 100, 101, 102
within one calendar month. -/
def exampleRows3 : List Row :=
  [mkRow 2000 1 3 100, mkRow 2000 1 4 101, mkRow 2000 1 5 102]

/-- Five rows whose highs are 1, 5, 3, 4, 6 (for the moving-max bootstrap). -/
def exampleHighRows : List Row :=
  [mkRow 2000 1 3 1, mkRow 2000 1 4 5, mkRow 2000 1 5 3, mkRow 2000 1 6 4,
    mkRow 2000 1 7 6]

/-- Five rows with drawdown triggers at positions 1 and 3. -/
def exampleRowsPD : List Row :=
  [mkRowPD 2000 1 3 100 none, mkRowPD 2000 1 4 100 (some (1 / 10)),
    mkRowPD 2000 1 5 100 none, mkRowPD 2000 1 6 100 (some (2 / 10)),
    mkRowPD 2000 1 7 100 none]

/-- Three rows where position 1 already carries a monthly-leg buy. -/
def exBuyRows : List Row :=
  [mkRowPD 2000 1 3 100 (some (1 / 2)),
    { mkRowPD 2000 1 4 100 none with buy := true }, mkRowPD 2000 1 5 100 none]

/-- The plan produced by the monthly strategy on the 3-record example. -/
def exampleMonthlyPlan : List Row :=
  okPlan (determine_buy_and_investment_amount
    (assign_available_capital exampleRows3 100) "monthly_invest_strategy"
    (9 / 10) (35 / 1000) 3 9)

/-- The plan produced by the markettiming strategy on the 5-record example. -/
def exampleTimingPlan : List Row :=
  okPlan (determine_buy_and_investment_amount
    (assign_available_capital exampleRowsPD 100) "markettiming_strategy"
    (9 / 10) (5 / 100) 3 2)

/-- A one-year plan investing 1000 whose portfolio ends worth 1200. -/
def roiExampleRows : List Row :=
  [{ mkRow 2000 1 3 100 with shareAmount := 10, investmentAmount := some 1000 },
    { mkRow 2000 1 4 120 with investmentAmount := some 0 }]

/-! ## Infrastructure lemmas about the positional updates -/

theorem length_modifyIdx (f : Row → Row) : ∀ (n : ℕ) (l : List Row),
    (modifyIdx f n l).length = l.length
  | n, [] => by cases n <;> rfl
  | 0, _ :: _ => rfl
  | n + 1, _ :: rs => by simp [modifyIdx, length_modifyIdx f n rs]

theorem length_mapFrom (f : Row → Row) : ∀ (n : ℕ) (l : List Row),
    (mapFrom f n l).length = l.length
  | 0, l => by simp [mapFrom]
  | _ + 1, [] => rfl
  | n + 1, _ :: rs => by simp [mapFrom, length_mapFrom f n rs]

theorem modifyIdx_eq_of_le (f : Row → Row) : ∀ (m : ℕ) (l : List Row),
    l.length ≤ m → modifyIdx f m l = l
  | m, [], _ => by cases m <;> rfl
  | 0, _ :: _, h => by simp at h
  | m + 1, r :: rs, h => by
    simp only [modifyIdx, List.cons.injEq, true_and]
    exact modifyIdx_eq_of_le f m rs (by simpa using h)

theorem getD_modifyIdx_ne (f : Row → Row) (d : Row) : ∀ (m j : ℕ) (l : List Row),
    j ≠ m → (modifyIdx f m l).getD j d = l.getD j d
  | m, _, [], _ => by cases m <;> rfl
  | 0, 0, _ :: _, h => absurd rfl h
  | 0, _ + 1, _ :: _, _ => rfl
  | _ + 1, 0, _ :: _, _ => rfl
  | m + 1, j + 1, _ :: rs, h => by
    simp only [modifyIdx, List.getD_cons_succ]
    exact getD_modifyIdx_ne f d m j rs (fun hh => h (by omega))

theorem getD_modifyIdx_eq (f : Row → Row) (d : Row) : ∀ (m : ℕ) (l : List Row),
    m < l.length → (modifyIdx f m l).getD m d = f (l.getD m d)
  | _, [], h => by simp at h
  | 0, _ :: _, _ => rfl
  | m + 1, _ :: rs, h => by
    simp only [modifyIdx, List.getD_cons_succ]
    exact getD_modifyIdx_eq f d m rs (by simpa using h)

theorem getD_mapFrom_lt (f : Row → Row) (d : Row) : ∀ (m j : ℕ) (l : List Row),
    j < m → (mapFrom f m l).getD j d = l.getD j d
  | 0, _, _, h => by omega
  | _ + 1, _, [], _ => rfl
  | _ + 1, 0, _ :: _, _ => rfl
  | m + 1, j + 1, _ :: rs, h => by
    simp only [mapFrom, List.getD_cons_succ]
    exact getD_mapFrom_lt f d m j rs (by omega)

theorem getD_mapFrom_ge (f : Row → Row) (d : Row) : ∀ (m j : ℕ) (l : List Row),
    m ≤ j → j < l.length → (mapFrom f m l).getD j d = f (l.getD j d)
  | 0, j, l, _, hl => by
    have hl2 : j < (l.map f).length := by simpa using hl
    show (l.map f).getD j d = f (l.getD j d)
    rw [List.getD_eq_getElem _ _ hl2, List.getD_eq_getElem _ _ hl, List.getElem_map]
  | _ + 1, _, [], _, hl => by simp at hl
  | m + 1, 0, _ :: _, h, _ => by omega
  | m + 1, j + 1, _ :: rs, h, hl => by
    simp only [mapFrom, List.getD_cons_succ]
    exact getD_mapFrom_ge f d m j rs (by omega) (by simpa using hl)

theorem modifyIdx_proj {α : Type} (g : Row → α) (f : Row → Row)
    (hf : ∀ r, g (f r) = g r) (m j : ℕ) (l : List Row) :
    g ((modifyIdx f m l).getD j default) = g (l.getD j default) := by
  by_cases hm : m < l.length
  · by_cases hj : j = m
    · subst hj
      rw [getD_modifyIdx_eq f _ _ _ hm, hf]
    · rw [getD_modifyIdx_ne f _ _ _ _ hj]
  · rw [modifyIdx_eq_of_le f _ _ (le_of_not_lt hm)]

theorem mapFrom_proj {α : Type} (g : Row → α) (f : Row → Row)
    (hf : ∀ r, g (f r) = g r) (m j : ℕ) (l : List Row) :
    g ((mapFrom f m l).getD j default) = g (l.getD j default) := by
  by_cases hj : j < m
  · rw [getD_mapFrom_lt f _ _ _ _ hj]
  · by_cases hl : j < l.length
    · rw [getD_mapFrom_ge f _ _ _ _ (le_of_not_lt hj) hl, hf]
    · rw [List.getD_eq_default _ _ (by rw [length_mapFrom]; omega),
        List.getD_eq_default _ _ (by omega)]

/-! ## Field lemmas for the single-row updates -/

theorem capAt_setBuy (n j : ℕ) (l : List Row) : capAt (setBuy n l) j = capAt l j :=
  modifyIdx_proj Row.capital (fun r => { r with buy := true }) (fun _ => rfl) n j l

theorem pdAt_setBuy (n j : ℕ) (l : List Row) : pdAt (setBuy n l) j = pdAt l j :=
  modifyIdx_proj Row.percentDrop (fun r => { r with buy := true }) (fun _ => rfl) n j l

theorem cashAt_setBuy (n j : ℕ) (l : List Row) : cashAt (setBuy n l) j = cashAt l j :=
  modifyIdx_proj Row.cash (fun r => { r with buy := true }) (fun _ => rfl) n j l

theorem ipAt_setBuy (n j : ℕ) (l : List Row) : ipAt (setBuy n l) j = ipAt l j :=
  modifyIdx_proj Row.investmentPercent (fun r => { r with buy := true }) (fun _ => rfl) n j l

theorem iaAt_setBuy (n j : ℕ) (l : List Row) : iaAt (setBuy n l) j = iaAt l j :=
  modifyIdx_proj Row.investmentAmount (fun r => { r with buy := true }) (fun _ => rfl) n j l

theorem capAt_setIP (n : ℕ) (v : Option ℚ) (j : ℕ) (l : List Row) :
    capAt (setIP n v l) j = capAt l j :=
  modifyIdx_proj Row.capital (fun r => { r with investmentPercent := v }) (fun _ => rfl) n j l

theorem pdAt_setIP (n : ℕ) (v : Option ℚ) (j : ℕ) (l : List Row) :
    pdAt (setIP n v l) j = pdAt l j :=
  modifyIdx_proj Row.percentDrop (fun r => { r with investmentPercent := v }) (fun _ => rfl) n j l

theorem cashAt_setIP (n : ℕ) (v : Option ℚ) (j : ℕ) (l : List Row) :
    cashAt (setIP n v l) j = cashAt l j :=
  modifyIdx_proj Row.cash (fun r => { r with investmentPercent := v }) (fun _ => rfl) n j l

theorem buyAt_setIP (n : ℕ) (v : Option ℚ) (j : ℕ) (l : List Row) :
    buyAt (setIP n v l) j = buyAt l j :=
  modifyIdx_proj Row.buy (fun r => { r with investmentPercent := v }) (fun _ => rfl) n j l

theorem iaAt_setIP (n : ℕ) (v : Option ℚ) (j : ℕ) (l : List Row) :
    iaAt (setIP n v l) j = iaAt l j :=
  modifyIdx_proj Row.investmentAmount (fun r => { r with investmentPercent := v })
    (fun _ => rfl) n j l

theorem capAt_setIA (n : ℕ) (v : Option ℚ) (j : ℕ) (l : List Row) :
    capAt (setIA n v l) j = capAt l j :=
  modifyIdx_proj Row.capital (fun r => { r with investmentAmount := v }) (fun _ => rfl) n j l

theorem pdAt_setIA (n : ℕ) (v : Option ℚ) (j : ℕ) (l : List Row) :
    pdAt (setIA n v l) j = pdAt l j :=
  modifyIdx_proj Row.percentDrop (fun r => { r with investmentAmount := v }) (fun _ => rfl) n j l

theorem cashAt_setIA (n : ℕ) (v : Option ℚ) (j : ℕ) (l : List Row) :
    cashAt (setIA n v l) j = cashAt l j :=
  modifyIdx_proj Row.cash (fun r => { r with investmentAmount := v }) (fun _ => rfl) n j l

theorem buyAt_setIA (n : ℕ) (v : Option ℚ) (j : ℕ) (l : List Row) :
    buyAt (setIA n v l) j = buyAt l j :=
  modifyIdx_proj Row.buy (fun r => { r with investmentAmount := v }) (fun _ => rfl) n j l

theorem ipAt_setIA (n : ℕ) (v : Option ℚ) (j : ℕ) (l : List Row) :
    ipAt (setIA n v l) j = ipAt l j :=
  modifyIdx_proj Row.investmentPercent (fun r => { r with investmentAmount := v })
    (fun _ => rfl) n j l

theorem capAt_subCash (n : ℕ) (a : Option ℚ) (j : ℕ) (l : List Row) :
    capAt (subCashFrom n a l) j = capAt l j :=
  mapFrom_proj Row.capital (fun r => { r with cash := osub r.cash a }) (fun _ => rfl) n j l

theorem pdAt_subCash (n : ℕ) (a : Option ℚ) (j : ℕ) (l : List Row) :
    pdAt (subCashFrom n a l) j = pdAt l j :=
  mapFrom_proj Row.percentDrop (fun r => { r with cash := osub r.cash a }) (fun _ => rfl) n j l

theorem buyAt_subCash (n : ℕ) (a : Option ℚ) (j : ℕ) (l : List Row) :
    buyAt (subCashFrom n a l) j = buyAt l j :=
  mapFrom_proj Row.buy (fun r => { r with cash := osub r.cash a }) (fun _ => rfl) n j l

theorem ipAt_subCash (n : ℕ) (a : Option ℚ) (j : ℕ) (l : List Row) :
    ipAt (subCashFrom n a l) j = ipAt l j :=
  mapFrom_proj Row.investmentPercent (fun r => { r with cash := osub r.cash a })
    (fun _ => rfl) n j l

theorem iaAt_subCash (n : ℕ) (a : Option ℚ) (j : ℕ) (l : List Row) :
    iaAt (subCashFrom n a l) j = iaAt l j :=
  mapFrom_proj Row.investmentAmount (fun r => { r with cash := osub r.cash a })
    (fun _ => rfl) n j l

theorem buyAt_setBuy_self (n : ℕ) (l : List Row) (h : n < l.length) :
    buyAt (setBuy n l) n = true := by
  show ((modifyIdx _ n l).getD n default).buy = true
  rw [getD_modifyIdx_eq _ _ _ _ h]

theorem buyAt_setBuy_ne (n j : ℕ) (l : List Row) (h : j ≠ n) :
    buyAt (setBuy n l) j = buyAt l j := by
  show ((modifyIdx _ n l).getD j default).buy = _
  rw [getD_modifyIdx_ne _ _ _ _ _ h]
  rfl

theorem ipAt_setIP_self (n : ℕ) (v : Option ℚ) (l : List Row) (h : n < l.length) :
    ipAt (setIP n v l) n = v := by
  show ((modifyIdx _ n l).getD n default).investmentPercent = v
  rw [getD_modifyIdx_eq _ _ _ _ h]

theorem iaAt_setIA_self (n : ℕ) (v : Option ℚ) (l : List Row) (h : n < l.length) :
    iaAt (setIA n v l) n = v := by
  show ((modifyIdx _ n l).getD n default).investmentAmount = v
  rw [getD_modifyIdx_eq _ _ _ _ h]

theorem cashAt_subCash_ge (n : ℕ) (a : Option ℚ) (j : ℕ) (l : List Row)
    (h1 : n ≤ j) (h2 : j < l.length) :
    cashAt (subCashFrom n a l) j = osub (cashAt l j) a := by
  show ((mapFrom _ n l).getD j default).cash = _
  rw [getD_mapFrom_ge _ _ _ _ _ h1 h2]
  rfl

theorem cashAt_subCash_lt (n : ℕ) (a : Option ℚ) (j : ℕ) (l : List Row) (h : j < n) :
    cashAt (subCashFrom n a l) j = cashAt l j := by
  show ((mapFrom _ n l).getD j default).cash = _
  rw [getD_mapFrom_lt _ _ _ _ _ h]
  rfl

/-! ## Field lemmas for the drawdown execution step -/

theorem length_execStep (dm : Int) (t : ℕ) (rows : List Row) :
    (execStep dm t rows).length = rows.length := by
  simp [execStep, subCashFrom, setIA, setIP, setBuy, length_mapFrom, length_modifyIdx]

theorem capAt_execStep (dm : Int) (t : ℕ) (rows : List Row) (j : ℕ) :
    capAt (execStep dm t rows) j = capAt rows j := by
  show capAt (subCashFrom _ _ (setIA _ _ (setIP _ _ (setBuy _ rows)))) j = _
  rw [capAt_subCash, capAt_setIA, capAt_setIP, capAt_setBuy]

theorem pdAt_execStep (dm : Int) (t : ℕ) (rows : List Row) (j : ℕ) :
    pdAt (execStep dm t rows) j = pdAt rows j := by
  show pdAt (subCashFrom _ _ (setIA _ _ (setIP _ _ (setBuy _ rows)))) j = _
  rw [pdAt_subCash, pdAt_setIA, pdAt_setIP, pdAt_setBuy]

theorem buyAt_execStep_ne (dm : Int) (t : ℕ) (rows : List Row) (j : ℕ) (h : j ≠ t + 1) :
    buyAt (execStep dm t rows) j = buyAt rows j := by
  show buyAt (subCashFrom _ _ (setIA _ _ (setIP _ _ (setBuy _ rows)))) j = _
  rw [buyAt_subCash, buyAt_setIA, buyAt_setIP, buyAt_setBuy_ne _ _ _ h]

theorem buyAt_execStep_self (dm : Int) (t : ℕ) (rows : List Row) (h : t + 1 < rows.length) :
    buyAt (execStep dm t rows) (t + 1) = true := by
  show buyAt (subCashFrom _ _ (setIA _ _ (setIP _ _ (setBuy _ rows)))) (t + 1) = true
  rw [buyAt_subCash, buyAt_setIA, buyAt_setIP, buyAt_setBuy_self _ _ h]

theorem buy_default_false : (default : Row).buy = false := rfl

theorem buyAt_execStep_mono (dm : Int) (t : ℕ) (rows : List Row) (j : ℕ)
    (h : buyAt rows j = true) : buyAt (execStep dm t rows) j = true := by
  by_cases hj : j = t + 1
  · subst hj
    by_cases hl : t + 1 < rows.length
    · exact buyAt_execStep_self dm t rows hl
    · exfalso
      rw [buyAt, List.getD_eq_default _ _ (le_of_not_lt hl), buy_default_false] at h
      exact Bool.noConfusion h
  · rw [buyAt_execStep_ne dm t rows j hj, h]

theorem ipAt_execStep_self (dm : Int) (t : ℕ) (rows : List Row) (h : t + 1 < rows.length) :
    ipAt (execStep dm t rows) (t + 1) = execIP dm t rows := by
  show ipAt (subCashFrom _ _ (setIA _ _ (setIP _ _ (setBuy _ rows)))) (t + 1) = _
  rw [ipAt_subCash, ipAt_setIA,
    ipAt_setIP_self _ _ _ (by simp only [setBuy, length_modifyIdx]; exact h)]

theorem ipAt_execStep_ne (dm : Int) (t : ℕ) (rows : List Row) (j : ℕ) (h : j ≠ t + 1) :
    ipAt (execStep dm t rows) j = ipAt rows j := by
  show ipAt (subCashFrom _ _ (setIA _ _ (setIP _ _ (setBuy _ rows)))) j = _
  rw [ipAt_subCash, ipAt_setIA]
  show ((modifyIdx _ _ _).getD j default).investmentPercent = _
  rw [getD_modifyIdx_ne _ _ _ _ _ h]
  exact ipAt_setBuy _ _ _

theorem iaAt_execStep_self (dm : Int) (t : ℕ) (rows : List Row) (h : t + 1 < rows.length) :
    iaAt (execStep dm t rows) (t + 1) = execAmt dm t rows := by
  show iaAt (subCashFrom _ _ (setIA _ _ (setIP _ _ (setBuy _ rows)))) (t + 1) = _
  rw [iaAt_subCash,
    iaAt_setIA_self _ _ _ (by simp only [setIP, setBuy, length_modifyIdx]; exact h)]

theorem iaAt_execStep_ne (dm : Int) (t : ℕ) (rows : List Row) (j : ℕ) (h : j ≠ t + 1) :
    iaAt (execStep dm t rows) j = iaAt rows j := by
  show iaAt (subCashFrom _ _ (setIA _ _ (setIP _ _ (setBuy _ rows)))) j = _
  rw [iaAt_subCash]
  show ((modifyIdx _ _ _).getD j default).investmentAmount = _
  rw [getD_modifyIdx_ne _ _ _ _ _ h]
  show iaAt (setIP _ _ (setBuy _ rows)) j = _
  rw [iaAt_setIP, iaAt_setBuy]

theorem execAmt_eq (dm : Int) (t : ℕ) (rows : List Row) :
    execAmt dm t rows = omul (cashAt rows (t + 1)) (execIP dm t rows) := by
  show omul (cashAt (setIP _ _ (setBuy _ rows)) (t + 1)) _ = _
  rw [cashAt_setIP, cashAt_setBuy]

theorem cashAt_execStep_ge (dm : Int) (t : ℕ) (rows : List Row) (j : ℕ)
    (h1 : t + 1 ≤ j) (h2 : j < rows.length) :
    cashAt (execStep dm t rows) j = osub (cashAt rows j) (execAmt dm t rows) := by
  show cashAt (subCashFrom _ _ (setIA _ _ (setIP _ _ (setBuy _ rows)))) j = _
  rw [cashAt_subCash_ge _ _ _ _ h1
    (by simp only [setIA, setIP, setBuy, length_modifyIdx]; exact h2),
    cashAt_setIA, cashAt_setIP, cashAt_setBuy]

theorem cashAt_execStep_lt (dm : Int) (t : ℕ) (rows : List Row) (j : ℕ) (h : j < t + 1) :
    cashAt (execStep dm t rows) j = cashAt rows j := by
  show cashAt (subCashFrom _ _ (setIA _ _ (setIP _ _ (setBuy _ rows)))) j = _
  rw [cashAt_subCash_lt _ _ _ _ h, cashAt_setIA, cashAt_setIP, cashAt_setBuy]

/-! ## Unfolding lemmas for the drawdown scan -/

theorem dropLoop_nil (mode : String) (wd dm li : Int) (lb : Int) (rows : List Row) :
    dropLoop mode wd dm li [] lb rows = (rows, []) := rfl

theorem dropLoop_cons_ineligible {mode : String} {wd dm li : Int} {t : ℕ}
    {rest : List ℕ} {lb : Int} {rows : List Row}
    (h : ¬(wd ≤ (t : Int) - lb ∧ (t : Int) ≠ li)) :
    dropLoop mode wd dm li (t :: rest) lb rows = dropLoop mode wd dm li rest lb rows := by
  simp only [dropLoop]
  rw [if_neg h]

theorem dropLoop_cons_hybridskip {mode : String} {wd dm li : Int} {t : ℕ}
    {rest : List ℕ} {lb : Int} {rows : List Row}
    (h1 : wd ≤ (t : Int) - lb ∧ (t : Int) ≠ li)
    (h2 : mode = "hybrid_strategy" ∧ buyAt rows (t + 1) = true) :
    dropLoop mode wd dm li (t :: rest) lb rows = dropLoop mode wd dm li rest lb rows := by
  simp only [dropLoop]
  rw [if_pos h1, if_pos h2]

theorem dropLoop_cons_exec {mode : String} {wd dm li : Int} {t : ℕ}
    {rest : List ℕ} {lb : Int} {rows : List Row}
    (h1 : wd ≤ (t : Int) - lb ∧ (t : Int) ≠ li)
    (h2 : ¬(mode = "hybrid_strategy" ∧ buyAt rows (t + 1) = true)) :
    dropLoop mode wd dm li (t :: rest) lb rows =
      ((dropLoop mode wd dm li rest (t : Int) (execStep dm t rows)).1,
        t :: (dropLoop mode wd dm li rest (t : Int) (execStep dm t rows)).2) := by
  simp only [dropLoop]
  rw [if_pos h1, if_neg h2]

/-! ## C7: horizon selection -/

/-- C7 (counterexample): the claim states that the horizon selector fails
with `InvalidRange` when `yearOffset` or `horizonLengthYears` is negative;
the source performs no validation — with both arguments negative it simply
returns the pair of shifted dates. -/
theorem horizon_negative_no_error :
    get_horizon_start_end ⟨2000, 1, 1⟩ (-5) (-3) = (⟨1995, 1, 1⟩, ⟨1992, 1, 1⟩) := rfl

/-- C7 (amended): `get_horizon_start_end` validates nothing and always
returns the start shifted by `year_start` years together with that date
shifted by `horizon_length` years; a horizon end beyond the series end is
not an error either — the pipeline slices the series, truncating at its
end, as the concrete 50-year-horizon run over a 3-day series shows. -/
theorem horizon_no_validation :
    (∀ (s : SimpleDate) (yo hl : Int),
      get_horizon_start_end s yo hl =
        (addYears s yo, addYears (addYears s yo) hl)) ∧
    (create_investment_plan exampleRows3 ⟨2000, 1, 1⟩ 0 50 "monthly_invest_strategy"
        100 (9 / 10) (35 / 1000) 3 9).isOk = true :=
  ⟨fun _ _ _ => rfl, by decide⟩

/-! ## C6: parameter validation -/

theorem length_monthlyAux (all : List Row) (p c0 : ℚ) : ∀ (i : ℕ) (csum : ℚ)
    (rs : List Row), (monthlyAux all p c0 i csum rs).length = rs.length
  | _, _, [] => rfl
  | i, csum, _ :: rs => by
    simp [monthlyAux, length_monthlyAux all p c0 (i + 1) _ rs]

theorem isEmpty_false_of_ne_nil {l : List Row} (h : l ≠ []) : l.isEmpty = false := by
  cases l
  · exact absurd rfl h
  · rfl

theorem create_monthly_ok {rows : List Row} {p c0 : ℚ} (h0 : 0 ≤ p) (h1 : p ≤ 1)
    (hc : (rows.filterMap (fun r => r.capital)).head? = some c0) :
    create_monthly_investment_plan rows p = .ok (monthlyAux rows p c0 0 0 rows) := by
  rw [create_monthly_investment_plan, if_pos ⟨h0, h1⟩, hc]

theorem create_drop_ok {rows : List Row} {mode : String} {thr : ℚ} {wd dm : Int}
    (ht0 : 0 ≤ thr) (ht1 : thr ≤ 1) (hwd : 1 ≤ wd) (hdm : 1 ≤ dm) (hne : rows ≠ []) :
    create_drop_threshold_investment_plan rows mode thr wd dm =
      .ok (dropLoop mode wd dm ((rows.length : Int) - 1)
        (triggerIdxs rows thr) (-wd) rows).1 := by
  rw [create_drop_threshold_investment_plan, if_neg (not_not_intro ⟨ht0, ht1⟩),
    if_neg (not_not_intro hwd), if_neg (not_not_intro hdm),
    if_neg (by rw [isEmpty_false_of_ne_nil hne]; exact fun hcon => Bool.noConfusion hcon)]

/-- C6 (counterexample): with mode `monthly_invest_strategy` the effective
monthly percentage is forced to 1.0 and the drawdown leg — including its
parameter validation — is skipped entirely: a call with out-of-range
`perc_monthly_invest = 5`, `perc_drop_threshold = 7`, `waiting_days = 0` and
`drop_multiplier = 0` returns a plan instead of raising `InvalidParameter`. -/
theorem monthly_mode_skips_param_checks :
    (determine_buy_and_investment_amount (assign_available_capital exampleRows3 100)
      "monthly_invest_strategy" 5 7 0 0).isOk = true := by decide

/-- C6 (amended): the planner validates the mode on every call, but the
remaining checks fire only on the legs that actually run: the supplied
`perc_monthly_invest` is range-checked only after the mode override (so only
hybrid mode can fail it), and the `perc_drop_threshold` / `waiting_days` /
`drop_multiplier` checks fire only when the effective monthly percentage is
not 1.0, i.e. only when the drawdown leg runs; with mode
`monthly_invest_strategy` every such parameter is accepted. -/
theorem planner_validation_behavior :
    (∀ (rows : List Row) (mode : String) (pmi thr : ℚ) (wd dm : Int),
      mode ∉ strategyModes →
      determine_buy_and_investment_amount rows mode pmi thr wd dm =
        .error "mode must be one of the three strategies") ∧
    (∀ (rows : List Row) (pmi thr : ℚ) (wd dm : Int),
      ¬(0 ≤ pmi ∧ pmi ≤ 1) →
      determine_buy_and_investment_amount rows "hybrid_strategy" pmi thr wd dm =
        .error "perc_monthly_invest must be within 0 and 1") ∧
    (∀ (rows : List Row) (pmi thr : ℚ) (wd dm : Int) (c0 : ℚ),
      (rows.filterMap (fun r => r.capital)).head? = some c0 →
      0 ≤ pmi → pmi ≤ 1 → pmi ≠ 1 → ¬(0 ≤ thr ∧ thr ≤ 1) →
      determine_buy_and_investment_amount rows "hybrid_strategy" pmi thr wd dm =
        .error "perc_drop_threshold must be within 0 and 1") ∧
    (∀ (rows : List Row) (pmi thr : ℚ) (wd dm : Int) (c0 : ℚ),
      (rows.filterMap (fun r => r.capital)).head? = some c0 →
      0 ≤ pmi → pmi ≤ 1 → pmi ≠ 1 → 0 ≤ thr → thr ≤ 1 → ¬(1 ≤ wd) →
      determine_buy_and_investment_amount rows "hybrid_strategy" pmi thr wd dm =
        .error "waiting_days must be a positive int") ∧
    (∀ (rows : List Row) (pmi thr : ℚ) (wd dm : Int) (c0 : ℚ),
      (rows.filterMap (fun r => r.capital)).head? = some c0 →
      0 ≤ pmi → pmi ≤ 1 → pmi ≠ 1 → 0 ≤ thr → thr ≤ 1 → 1 ≤ wd → ¬(1 ≤ dm) →
      determine_buy_and_investment_amount rows "hybrid_strategy" pmi thr wd dm =
        .error "drop_multiplier must be a positive int") ∧
    (∀ (rows : List Row) (pmi thr : ℚ) (wd dm : Int) (c0 : ℚ),
      (rows.filterMap (fun r => r.capital)).head? = some c0 →
      (determine_buy_and_investment_amount rows "monthly_invest_strategy"
        pmi thr wd dm).isOk = true) ∧
    (∀ (rows : List Row) (pmi thr : ℚ) (wd dm : Int) (c0 : ℚ),
      (rows.filterMap (fun r => r.capital)).head? = some c0 → rows ≠ [] →
      0 ≤ thr → thr ≤ 1 → 1 ≤ wd → 1 ≤ dm →
      (determine_buy_and_investment_amount rows "markettiming_strategy"
        pmi thr wd dm).isOk = true) := by
  refine ⟨?_, ?_, ?_, ?_, ?_, ?_, ?_⟩
  · intro rows mode pmi thr wd dm h
    rw [determine_buy_and_investment_amount, if_neg h]
  · intro rows pmi thr wd dm h
    have hne : pmi ≠ 1 := fun h1 => h (by rw [h1]; exact ⟨by norm_num, le_refl 1⟩)
    have hcm : create_monthly_investment_plan rows pmi =
        .error "perc_monthly_invest must be within 0 and 1" := by
      rw [create_monthly_investment_plan, if_neg h]
    simp [determine_buy_and_investment_amount, strategyModes, hne, hcm]
  · intro rows pmi thr wd dm c0 hc h0 h1 hne hthr
    have hcd : create_drop_threshold_investment_plan (monthlyAux rows pmi c0 0 0 rows)
        "hybrid_strategy" thr wd dm =
        .error "perc_drop_threshold must be within 0 and 1" := by
      rw [create_drop_threshold_investment_plan, if_pos hthr]
    simp [determine_buy_and_investment_amount, strategyModes, hne,
      create_monthly_ok h0 h1 hc, hcd, Except.map]
  · intro rows pmi thr wd dm c0 hc h0 h1 hne ht0 ht1 hwd
    have hcd : create_drop_threshold_investment_plan (monthlyAux rows pmi c0 0 0 rows)
        "hybrid_strategy" thr wd dm =
        .error "waiting_days must be a positive int" := by
      rw [create_drop_threshold_investment_plan, if_neg (not_not_intro ⟨ht0, ht1⟩),
        if_pos hwd]
    simp [determine_buy_and_investment_amount, strategyModes, hne,
      create_monthly_ok h0 h1 hc, hcd, Except.map]
  · intro rows pmi thr wd dm c0 hc h0 h1 hne ht0 ht1 hwd hdm
    have hcd : create_drop_threshold_investment_plan (monthlyAux rows pmi c0 0 0 rows)
        "hybrid_strategy" thr wd dm =
        .error "drop_multiplier must be a positive int" := by
      rw [create_drop_threshold_investment_plan, if_neg (not_not_intro ⟨ht0, ht1⟩),
        if_neg (not_not_intro hwd), if_pos hdm]
    simp [determine_buy_and_investment_amount, strategyModes, hne,
      create_monthly_ok h0 h1 hc, hcd, Except.map]
  · intro rows pmi thr wd dm c0 hc
    simp [determine_buy_and_investment_amount, strategyModes,
      create_monthly_ok (by norm_num : (0 : ℚ) ≤ 1) (le_refl (1 : ℚ)) hc,
      Except.map, Except.isOk, Except.toBool]
  · intro rows pmi thr wd dm c0 hc hne ht0 ht1 hwd hdm
    have hlen : (monthlyAux rows 0 c0 0 0 rows).length = rows.length :=
      length_monthlyAux rows 0 c0 0 0 rows
    have hnil : monthlyAux rows 0 c0 0 0 rows ≠ [] := by
      intro hcon
      rw [hcon] at hlen
      exact hne (List.length_eq_zero.mp hlen.symm)
    simp [determine_buy_and_investment_amount, strategyModes,
      create_monthly_ok (le_refl (0 : ℚ)) (by norm_num : (0 : ℚ) ≤ 1) hc,
      create_drop_ok ht0 ht1 hwd hdm hnil, Except.map, Except.isOk, Except.toBool]

/-- Witness for C6 amended: an unknown mode is rejected, and a markettiming
run with valid drawdown parameters but out-of-range `perc_monthly_invest`
succeeds (the supplied value is overridden). -/
theorem planner_validation_behavior_witness :
    determine_buy_and_investment_amount exampleRows3 "bogus_strategy" 0 0 1 1 =
      .error "mode must be one of the three strategies" ∧
    (determine_buy_and_investment_amount (assign_available_capital exampleRows3 100)
      "markettiming_strategy" 5 (35 / 1000) 3 9).isOk = true :=
  ⟨planner_validation_behavior.1 exampleRows3 "bogus_strategy" 0 0 1 1 (by decide),
    planner_validation_behavior.2.2.2.2.2.2
      (assign_available_capital exampleRows3 100) 5 (35 / 1000) 3 9 100
      (by with_unfolding_all rfl) (by decide) (by norm_num) (by norm_num)
      (by norm_num) (by norm_num)⟩

/-! ## C1: hybrid suppression -/

theorem dropLoop_hybrid_no_monthly (wd dm li : Int) : ∀ (ts : List ℕ) (lb : Int)
    (rows : List Row) (e : ℕ),
    e ∈ (dropLoop "hybrid_strategy" wd dm li ts lb rows).2 →
    buyAt rows (e + 1) = false
  | [], _, _, _, he => by simp [dropLoop_nil] at he
  | t :: rest, lb, rows, e, he => by
    by_cases h1 : wd ≤ (t : Int) - lb ∧ (t : Int) ≠ li
    · by_cases h2 : ("hybrid_strategy" : String) = "hybrid_strategy" ∧
          buyAt rows (t + 1) = true
      · rw [dropLoop_cons_hybridskip h1 h2] at he
        exact dropLoop_hybrid_no_monthly wd dm li rest lb rows e he
      · rw [dropLoop_cons_exec h1 h2] at he
        rcases List.mem_cons.mp he with heq | he'
        · subst heq
          cases hcase : buyAt rows (e + 1)
          · rfl
          · exact absurd ⟨rfl, hcase⟩ h2
        · have hrec := dropLoop_hybrid_no_monthly wd dm li rest (t : Int)
            (execStep dm t rows) e he'
          cases hcase : buyAt rows (e + 1)
          · rfl
          · rw [buyAt_execStep_mono dm t rows (e + 1) hcase] at hrec
            exact Bool.noConfusion hrec
    · rw [dropLoop_cons_ineligible h1] at he
      exact dropLoop_hybrid_no_monthly wd dm li rest lb rows e he

/-- C1: in hybrid mode, a trigger whose execution day `t + 1` already has
`buy = True` from the monthly leg is skipped: the scan continues with the
rows and `last_buy` unchanged (so the skip neither adds an investment nor
consumes a waiting-period slot), and consequently no executed drawdown buy
ever lands on a day that already carried a buy — a day is never
double-counted. -/
theorem hybrid_suppression :
    (∀ (wd dm li : Int) (t : ℕ) (rest : List ℕ) (lb : Int) (rows : List Row),
      wd ≤ (t : Int) - lb → (t : Int) ≠ li → buyAt rows (t + 1) = true →
      dropLoop "hybrid_strategy" wd dm li (t :: rest) lb rows =
        dropLoop "hybrid_strategy" wd dm li rest lb rows) ∧
    (∀ (wd dm li : Int) (ts : List ℕ) (lb : Int) (rows : List Row) (e : ℕ),
      e ∈ (dropLoop "hybrid_strategy" wd dm li ts lb rows).2 →
      buyAt rows (e + 1) = false) :=
  ⟨fun wd dm li t rest lb rows h1 h2 hb =>
    dropLoop_cons_hybridskip ⟨h1, h2⟩ ⟨rfl, hb⟩,
    fun wd dm li ts lb rows e he => dropLoop_hybrid_no_monthly wd dm li ts lb rows e he⟩

/-- Witness for C1: with a monthly buy already on day 1, the eligible trigger
at index 0 is skipped and leaves the plan unchanged, and the executed trigger
at index 2 lands on a day with no monthly buy. -/
theorem hybrid_suppression_witness :
    dropLoop "hybrid_strategy" 1 1 5 [0] (-1) exBuyRows =
      dropLoop "hybrid_strategy" 1 1 5 [] (-1) exBuyRows ∧
    buyAt exBuyRows 3 = false :=
  ⟨hybrid_suppression.1 1 1 5 0 [] (-1) exBuyRows (by decide) (by decide) (by decide),
    hybrid_suppression.2 1 1 5 [2] (-1) exBuyRows 2 (by with_unfolding_all decide)⟩

/-! ## C2: waiting-period spacing -/

theorem dropLoop_execs_spaced (mode : String) (wd dm li : Int) (hwd : 1 ≤ wd) :
    ∀ (ts : List ℕ) (lb : Int) (rows : List Row),
      (∀ e ∈ (dropLoop mode wd dm li ts lb rows).2, lb + wd ≤ (e : Int)) ∧
      List.Chain' (fun a b : ℕ => (a : Int) + wd ≤ (b : Int))
        (dropLoop mode wd dm li ts lb rows).2
  | [], _, _ => by simp [dropLoop_nil]
  | t :: rest, lb, rows => by
    by_cases h1 : wd ≤ (t : Int) - lb ∧ (t : Int) ≠ li
    · by_cases h2 : mode = "hybrid_strategy" ∧ buyAt rows (t + 1) = true
      · rw [dropLoop_cons_hybridskip h1 h2]
        exact dropLoop_execs_spaced mode wd dm li hwd rest lb rows
      · rw [dropLoop_cons_exec h1 h2]
        obtain ⟨ih1, ih2⟩ :=
          dropLoop_execs_spaced mode wd dm li hwd rest (t : Int) (execStep dm t rows)
        constructor
        · intro e he
          rcases List.mem_cons.mp he with heq | he'
          · subst heq
            omega
          · have := ih1 e he'
            have := h1.1
            omega
        · rw [List.chain'_cons']
          exact ⟨fun b hb => ih1 b (List.mem_of_mem_head? hb), ih2⟩
    · rw [dropLoop_cons_ineligible h1]
      exact dropLoop_execs_spaced mode wd dm li hwd rest lb rows

/-- C2: in every run of the drawdown scan with a positive waiting period,
every executed trigger `e` satisfies `e - last_buy >= waiting_days` relative
to the `last_buy` the scan started with, consecutive executed triggers are at
least `waiting_days` apart (spacing is measured from trigger index to trigger
index, because `last_buy` is set to the trigger index, not the execution
index), and a trigger inside the waiting window is dropped with the rows and
`last_buy` unchanged — it neither shortens nor extends the window. -/
theorem waiting_period_spacing :
    (∀ (mode : String) (wd dm li : Int) (ts : List ℕ) (lb : Int) (rows : List Row),
      1 ≤ wd →
      (∀ e ∈ (dropLoop mode wd dm li ts lb rows).2, lb + wd ≤ (e : Int)) ∧
      List.Chain' (fun a b : ℕ => (a : Int) + wd ≤ (b : Int))
        (dropLoop mode wd dm li ts lb rows).2) ∧
    (∀ (mode : String) (wd dm li : Int) (t : ℕ) (rest : List ℕ) (lb : Int)
        (rows : List Row),
      (t : Int) - lb < wd →
      dropLoop mode wd dm li (t :: rest) lb rows =
        dropLoop mode wd dm li rest lb rows) :=
  ⟨fun mode wd dm li ts lb rows hwd => dropLoop_execs_spaced mode wd dm li hwd ts lb rows,
    fun _ _ _ _ _ _ _ _ hlt =>
      dropLoop_cons_ineligible (fun hc => absurd hc.1 (not_le.mpr hlt))⟩

/-- Witness for C2: with `waiting_days = 3` and triggers at indices 1 and 3,
only index 1 executes; the executed list respects the window bound, and the
trigger at index 3 (inside the window) is dropped without any state change. -/
theorem waiting_period_spacing_witness :
    ((∀ e ∈ (dropLoop "markettiming_strategy" 3 2 4 [1, 3] (-3)
        exampleRowsPD).2, (-3 : Int) + 3 ≤ (e : Int)) ∧
      List.Chain' (fun a b : ℕ => (a : Int) + 3 ≤ (b : Int))
        (dropLoop "markettiming_strategy" 3 2 4 [1, 3] (-3) exampleRowsPD).2) ∧
    dropLoop "markettiming_strategy" 3 2 4 (3 :: []) 1 exampleRowsPD =
      dropLoop "markettiming_strategy" 3 2 4 [] 1 exampleRowsPD :=
  ⟨waiting_period_spacing.1 "markettiming_strategy" 3 2 4 [1, 3] (-3) exampleRowsPD
      (by norm_num),
    waiting_period_spacing.2 "markettiming_strategy" 3 2 4 3 [] 1 exampleRowsPD
      (by norm_num)⟩

/-! ## C3: drawdown execution effects -/

/-- C3: an eligible, non-suppressed trigger at index `t` (with a following
day in the horizon) executes on day `t + 1`: the scan records `last_buy = t`
and continues on rows where `buy(t+1) = True`,
`investment_percent(t+1) = min(1, percent_drop(t) * drop_multiplier)`,
`investment_amount(t+1) = cash(t+1) * investment_percent(t+1)` computed from
the cash value before the subtraction, and the amount is subtracted from
`cash` on day `t + 1` and every later day (earlier days unchanged).  A
trigger on the last record is skipped without any effect, and a run of
`create_drop_threshold_investment_plan` with valid parameters returns a plan,
never an error. -/
theorem drawdown_execution :
    (∀ (mode : String) (wd dm li : Int) (t : ℕ) (rest : List ℕ) (lb : Int)
        (rows : List Row),
      wd ≤ (t : Int) - lb → (t : Int) ≠ li →
      ¬(mode = "hybrid_strategy" ∧ buyAt rows (t + 1) = true) →
      t + 1 < rows.length →
      dropLoop mode wd dm li (t :: rest) lb rows =
        ((dropLoop mode wd dm li rest (t : Int) (execStep dm t rows)).1,
          t :: (dropLoop mode wd dm li rest (t : Int) (execStep dm t rows)).2) ∧
      buyAt (execStep dm t rows) (t + 1) = true ∧
      ipAt (execStep dm t rows) (t + 1) =
        (pdAt rows t).map (fun v => min 1 (v * (dm : ℚ))) ∧
      iaAt (execStep dm t rows) (t + 1) =
        omul (cashAt rows (t + 1)) (ipAt (execStep dm t rows) (t + 1)) ∧
      (∀ j, t + 1 ≤ j → j < rows.length →
        cashAt (execStep dm t rows) j =
          osub (cashAt rows j) (iaAt (execStep dm t rows) (t + 1))) ∧
      (∀ j, j < t + 1 → cashAt (execStep dm t rows) j = cashAt rows j)) ∧
    (∀ (mode : String) (wd dm li : Int) (t : ℕ) (rest : List ℕ) (lb : Int)
        (rows : List Row),
      (t : Int) = li →
      dropLoop mode wd dm li (t :: rest) lb rows =
        dropLoop mode wd dm li rest lb rows) ∧
    (∀ (rows : List Row) (mode : String) (thr : ℚ) (wd dm : Int),
      0 ≤ thr → thr ≤ 1 → 1 ≤ wd → 1 ≤ dm → rows ≠ [] →
      (create_drop_threshold_investment_plan rows mode thr wd dm).isOk = true) := by
  refine ⟨?_, ?_, ?_⟩
  · intro mode wd dm li t rest lb rows h1a h1b h2 hlen
    refine ⟨dropLoop_cons_exec ⟨h1a, h1b⟩ h2, buyAt_execStep_self dm t rows hlen,
      ipAt_execStep_self dm t rows hlen, ?_, ?_, ?_⟩
    · rw [iaAt_execStep_self dm t rows hlen, execAmt_eq,
        ipAt_execStep_self dm t rows hlen]
    · intro j hj hjl
      rw [cashAt_execStep_ge dm t rows j hj hjl, iaAt_execStep_self dm t rows hlen]
    · intro j hj
      exact cashAt_execStep_lt dm t rows j hj
  · intro mode wd dm li t rest lb rows hteq
    exact dropLoop_cons_ineligible (fun hc => hc.2 hteq)
  · intro rows mode thr wd dm ht0 ht1 hwd hdm hne
    rw [create_drop_ok ht0 ht1 hwd hdm hne]
    rfl

/-- Witness for C3: the trigger at index 1 of the concrete series executes
on day 2, a trigger sitting on the last index 4 is dropped with no effect,
and the concrete drawdown run returns a plan. -/
theorem drawdown_execution_witness :
    buyAt (execStep 2 1 exampleRowsPD) 2 = true ∧
    dropLoop "markettiming_strategy" 3 2 4 [4] 1 exampleRowsPD =
      dropLoop "markettiming_strategy" 3 2 4 [] 1 exampleRowsPD ∧
    (create_drop_threshold_investment_plan exampleRowsPD "markettiming_strategy"
      (5 / 100) 3 2).isOk = true :=
  ⟨(drawdown_execution.1 "markettiming_strategy" 3 2 4 1 [] (-3) exampleRowsPD
      (by norm_num) (by norm_num) (by simp) (by decide)).2.1,
    drawdown_execution.2.1 "markettiming_strategy" 3 2 4 4 [] 1 exampleRowsPD rfl,
    drawdown_execution.2.2 exampleRowsPD "markettiming_strategy" (5 / 100) 3 2
      (by norm_num) (by norm_num) (by norm_num) (by norm_num) (by decide)⟩

/-! ## C8: the monthly strategy -/

theorem getD_map_proj {α : Type} (g : Row → α) (f : Row → Row)
    (hf : ∀ r, g (f r) = g r) (l : List Row) (j : ℕ) :
    g ((l.map f).getD j default) = g (l.getD j default) := by
  by_cases h : j < l.length
  · have h2 : j < (l.map f).length := by simpa using h
    rw [List.getD_eq_getElem _ _ h2, List.getD_eq_getElem _ _ h, List.getElem_map, hf]
  · rw [List.getD_eq_default _ _ (by simpa using le_of_not_lt h),
      List.getD_eq_default _ _ (le_of_not_lt h)]

theorem length_finalize (rows : List Row) : (finalizePlan rows).length = rows.length := by
  simp [finalizePlan]

theorem buyAt_finalize (rows : List Row) (i : ℕ) :
    buyAt (finalizePlan rows) i = buyAt rows i :=
  getD_map_proj Row.buy finalizeRow (fun _ => rfl) rows i

theorem capAt_finalize (rows : List Row) (i : ℕ) :
    capAt (finalizePlan rows) i = capAt rows i :=
  getD_map_proj Row.capital finalizeRow (fun _ => rfl) rows i

theorem cashAt_finalize (rows : List Row) (i : ℕ) :
    cashAt (finalizePlan rows) i = cashAt rows i :=
  getD_map_proj Row.cash finalizeRow (fun _ => rfl) rows i

theorem pdAt_finalize (rows : List Row) (i : ℕ) :
    pdAt (finalizePlan rows) i = pdAt rows i :=
  getD_map_proj Row.percentDrop finalizeRow (fun _ => rfl) rows i

theorem openAt_finalize (rows : List Row) (i : ℕ) :
    openAt (finalizePlan rows) i = openAt rows i :=
  getD_map_proj Row.Open finalizeRow (fun _ => rfl) rows i

theorem iaAt_finalize (rows : List Row) (i : ℕ) (h : i < rows.length) :
    iaAt (finalizePlan rows) i = some ((iaAt rows i).getD 0) := by
  unfold finalizePlan iaAt
  have h2 : i < (rows.map finalizeRow).length := by simpa using h
  rw [List.getD_eq_getElem _ _ h2, List.getD_eq_getElem _ _ h, List.getElem_map]
  rfl

theorem shareAt_finalize (rows : List Row) (i : ℕ) (h : i < rows.length) :
    shareAt (finalizePlan rows) i = (iaAt rows i).getD 0 / openAt rows i := by
  unfold finalizePlan shareAt iaAt openAt
  have h2 : i < (rows.map finalizeRow).length := by simpa using h
  rw [List.getD_eq_getElem _ _ h2, List.getD_eq_getElem _ _ h, List.getElem_map]
  rfl

theorem buyAt_monthlyAux (all : List Row) (p c0 : ℚ) : ∀ (rs : List Row) (i : ℕ)
    (csum : ℚ) (k : ℕ), k < rs.length →
    buyAt (monthlyAux all p c0 i csum rs) k =
      (isMonthFirst all (i + k) && decide (p > 0))
  | [], _, _, _, h => by simp at h
  | r :: rs, i, csum, 0, _ => by
    simp [monthlyAux, buyAt]
  | r :: rs, i, csum, k + 1, h => by
    have step : buyAt (monthlyAux all p c0 i csum (r :: rs)) (k + 1) =
        buyAt (monthlyAux all p c0 (i + 1)
          (csum + (if isMonthFirst all i then c0 * p else 0)) rs) k := rfl
    rw [step, buyAt_monthlyAux all p c0 rs (i + 1) _ k (by simpa using h),
      show i + 1 + k = i + (k + 1) by omega]

theorem determine_monthly_ok {rows plan : List Row} {pmi thr : ℚ} {wd dm : Int}
    (hok : determine_buy_and_investment_amount rows "monthly_invest_strategy"
      pmi thr wd dm = .ok plan) :
    ∃ c0, (rows.filterMap (fun r => r.capital)).head? = some c0 ∧
      plan = finalizePlan (monthlyAux rows 1 c0 0 0 rows) := by
  cases hc : (rows.filterMap (fun r => r.capital)).head? with
  | none =>
    exfalso
    have hcm : create_monthly_investment_plan rows 1 = .error "IndexError" := by
      rw [create_monthly_investment_plan, if_pos ⟨by norm_num, le_refl 1⟩, hc]
    simp [determine_buy_and_investment_amount, strategyModes, hcm, Except.map] at hok
  | some c0 =>
    refine ⟨c0, rfl, ?_⟩
    have hcm := create_monthly_ok (by norm_num : (0 : ℚ) ≤ 1) (le_refl (1 : ℚ)) hc
    simp [determine_buy_and_investment_amount, strategyModes, hcm, Except.map] at hok
    exact hok.symm

/-- C8: under `monthly_invest_strategy` (effective percentage forced to 1.0)
the produced plan has `buy = True` exactly on the first trading day of every
calendar month of the horizon and nowhere else; on the 3-record example with
opens 100, 101, 102 and monthly savings 100, the first record shows
`buy = True`, `investment_amount = 100`, `share_amount = 1`, `cash = 0`, and
the other two records show `buy = False`, `investment_amount = 0`. -/
theorem monthly_strategy_buys :
    (∀ (rows : List Row) (pmi thr : ℚ) (wd dm : Int) (plan : List Row),
      determine_buy_and_investment_amount rows "monthly_invest_strategy"
        pmi thr wd dm = .ok plan →
      ∀ i, i < plan.length → buyAt plan i = isMonthFirst rows i) ∧
    (buyAt exampleMonthlyPlan 0 = true ∧
      iaAt exampleMonthlyPlan 0 = some 100 ∧
      shareAt exampleMonthlyPlan 0 = 1 ∧
      cashAt exampleMonthlyPlan 0 = some 0 ∧
      buyAt exampleMonthlyPlan 1 = false ∧
      iaAt exampleMonthlyPlan 1 = some 0 ∧
      buyAt exampleMonthlyPlan 2 = false ∧
      iaAt exampleMonthlyPlan 2 = some 0) := by
  constructor
  · intro rows pmi thr wd dm plan hok i hi
    obtain ⟨c0, hc, rfl⟩ := determine_monthly_ok hok
    have hlen : i < rows.length := by
      rw [length_finalize, length_monthlyAux] at hi
      exact hi
    rw [buyAt_finalize, buyAt_monthlyAux rows 1 c0 rows 0 0 i hlen]
    simp
  · exact ⟨by with_unfolding_all decide, by with_unfolding_all decide,
      by with_unfolding_all decide, by with_unfolding_all decide,
      by with_unfolding_all decide, by with_unfolding_all decide,
      by with_unfolding_all decide, by with_unfolding_all decide⟩

/-- Witness for C8: the general part applied to the concrete 3-record run —
record 0 is its month's first trading day, records 1 and 2 are not. -/
theorem monthly_strategy_buys_witness :
    buyAt exampleMonthlyPlan 0 =
      isMonthFirst (assign_available_capital exampleRows3 100) 0 ∧
    buyAt exampleMonthlyPlan 1 =
      isMonthFirst (assign_available_capital exampleRows3 100) 1 :=
  ⟨monthly_strategy_buys.1 (assign_available_capital exampleRows3 100)
      (9 / 10) (35 / 1000) 3 9 exampleMonthlyPlan
      (by with_unfolding_all rfl) 0 (by with_unfolding_all decide),
    monthly_strategy_buys.1 (assign_available_capital exampleRows3 100)
      (9 / 10) (35 / 1000) 3 9 exampleMonthlyPlan
      (by with_unfolding_all rfl) 1 (by with_unfolding_all decide)⟩

/-! ## C10: percent_drop comes from the pre-existing moving_max column -/

theorem length_assignCap (all : List Row) (ms : ℚ) : ∀ (i : ℕ) (acc : Option ℚ)
    (rs : List Row), (assignCapAux all ms i acc rs).length = rs.length
  | _, _, [] => rfl
  | i, acc, _ :: rs => by
    simp [assignCapAux, length_assignCap all ms (i + 1) _ rs]

theorem pdAt_assignCap (all : List Row) (ms : ℚ) : ∀ (i : ℕ) (acc : Option ℚ)
    (rs : List Row) (k : ℕ),
    pdAt (assignCapAux all ms i acc rs) k = pdAt rs k
  | _, _, [], _ => rfl
  | i, acc, r :: rs, 0 => rfl
  | i, acc, r :: rs, k + 1 => pdAt_assignCap all ms (i + 1) _ rs k

theorem pdAt_monthlyAux (all : List Row) (p c0 : ℚ) : ∀ (i : ℕ) (csum : ℚ)
    (rs : List Row) (k : ℕ),
    pdAt (monthlyAux all p c0 i csum rs) k = pdAt rs k
  | _, _, [], _ => rfl
  | i, csum, r :: rs, 0 => rfl
  | i, csum, r :: rs, k + 1 => pdAt_monthlyAux all p c0 (i + 1) _ rs k

theorem pdAt_compute_percent_drop (rows : List Row) (i : ℕ) :
    pdAt (compute_percent_drop rows) i =
      (mmAt rows i).map (fun mx => 1 - (rows.getD i default).AdjClose / mx) := by
  unfold compute_percent_drop pdAt mmAt
  by_cases h : i < rows.length
  · have h2 : i < (rows.map pdRow).length := by simpa using h
    rw [List.getD_eq_getElem _ _ h2, List.getD_eq_getElem _ _ h, List.getElem_map]
    rfl
  · rw [List.getD_eq_default _ _ (by simpa using le_of_not_lt h),
      List.getD_eq_default _ _ (le_of_not_lt h)]
    rfl

theorem triggerIdxs_nil_of_pd_none {rows : List Row} {thr : ℚ}
    (h : ∀ i, i < rows.length → pdAt rows i = none) :
    triggerIdxs rows thr = [] := by
  rw [triggerIdxs, List.filter_eq_nil]
  intro i hi
  rw [h i (List.mem_range.mp hi)]
  simp

theorem determine_markettiming_ok {rows plan : List Row} {pmi thr : ℚ} {wd dm : Int}
    (hok : determine_buy_and_investment_amount rows "markettiming_strategy"
      pmi thr wd dm = .ok plan) :
    ∃ c0, (rows.filterMap (fun r => r.capital)).head? = some c0 ∧
      (0 ≤ thr ∧ thr ≤ 1) ∧ 1 ≤ wd ∧ 1 ≤ dm ∧ rows ≠ [] ∧
      plan = finalizePlan ((dropLoop "markettiming_strategy" wd dm
        (((monthlyAux rows 0 c0 0 0 rows).length : Int) - 1)
        (triggerIdxs (monthlyAux rows 0 c0 0 0 rows) thr) (-wd)
        (monthlyAux rows 0 c0 0 0 rows)).1) := by
  cases hc : (rows.filterMap (fun r => r.capital)).head? with
  | none =>
    exfalso
    have hcm : create_monthly_investment_plan rows 0 = .error "IndexError" := by
      rw [create_monthly_investment_plan, if_pos ⟨le_refl 0, by norm_num⟩, hc]
    simp [determine_buy_and_investment_amount, strategyModes, hcm, Except.map] at hok
  | some c0 =>
    refine ⟨c0, rfl, ?_⟩
    have hcm := create_monthly_ok (le_refl (0 : ℚ)) (by norm_num : (0 : ℚ) ≤ 1) hc
    by_cases hthr : 0 ≤ thr ∧ thr ≤ 1
    · by_cases hwd : 1 ≤ wd
      · by_cases hdm : 1 ≤ dm
        case neg =>
          exfalso
          have hcd : create_drop_threshold_investment_plan (monthlyAux rows 0 c0 0 0 rows)
              "markettiming_strategy" thr wd dm =
              .error "drop_multiplier must be a positive int" := by
            rw [create_drop_threshold_investment_plan, if_neg (not_not_intro hthr),
              if_neg (not_not_intro hwd), if_pos hdm]
          simp [determine_buy_and_investment_amount, strategyModes, hcm, hcd,
            Except.map] at hok
        case pos =>
          by_cases hnil : rows = []
          · exfalso
            subst hnil
            simp at hc
          · have hlen : (monthlyAux rows 0 c0 0 0 rows).length = rows.length :=
              length_monthlyAux rows 0 c0 0 0 rows
            have hnil2 : monthlyAux rows 0 c0 0 0 rows ≠ [] := by
              intro hcon
              rw [hcon] at hlen
              exact hnil (List.length_eq_zero.mp hlen.symm)
            have hcd := @create_drop_ok (monthlyAux rows 0 c0 0 0 rows)
              "markettiming_strategy" thr wd dm hthr.1 hthr.2 hwd hdm hnil2
            simp [determine_buy_and_investment_amount, strategyModes, hcm, hcd,
              Except.map] at hok
            exact ⟨hthr, hwd, hdm, hnil, hok.symm⟩
      · exfalso
        have hcd : create_drop_threshold_investment_plan (monthlyAux rows 0 c0 0 0 rows)
            "markettiming_strategy" thr wd dm =
            .error "waiting_days must be a positive int" := by
          rw [create_drop_threshold_investment_plan, if_neg (not_not_intro hthr),
            if_pos hwd]
        simp [determine_buy_and_investment_amount, strategyModes, hcm, hcd,
          Except.map] at hok
    · exfalso
      have hcd : create_drop_threshold_investment_plan (monthlyAux rows 0 c0 0 0 rows)
          "markettiming_strategy" thr wd dm =
          .error "perc_drop_threshold must be within 0 and 1" := by
        rw [create_drop_threshold_investment_plan, if_pos hthr]
      simp [determine_buy_and_investment_amount, strategyModes, hcm, hcd,
        Except.map] at hok

theorem length_compute_percent_drop (rows : List Row) :
    (compute_percent_drop rows).length = rows.length := by
  simp [compute_percent_drop]

/-- C10: `create_investment_plan` never computes the moving maximum itself:
`percent_drop` is derived as `1 - AdjClose / moving_max` from the
`moving_max` column already present on its input (NaN when absent), and a
caller that has not pre-annotated the series (every `moving_max` NaN) gets
an all-NaN `percent_drop`, so the drawdown leg sees no trigger at all — a
markettiming run over such a series produces no buys whatsoever. -/
theorem percent_drop_from_input :
    (∀ (rows : List Row) (i : ℕ),
      pdAt (compute_percent_drop rows) i =
        (mmAt rows i).map (fun mx => 1 - (rows.getD i default).AdjClose / mx)) ∧
    (∀ (rows : List Row) (s : SimpleDate) (yo hl : Int) (ms pmi thr : ℚ)
        (wd dm : Int) (plan : List Row),
      (∀ r ∈ rows, r.movingMax = none) →
      create_investment_plan rows s yo hl "markettiming_strategy" ms pmi thr
        wd dm = .ok plan →
      ∀ i, buyAt plan i = false) := by
  constructor
  · exact pdAt_compute_percent_drop
  · intro rows s yo hl ms pmi thr wd dm plan hmm hok i
    have hok2 : determine_buy_and_investment_amount
        (assign_available_capital (compute_percent_drop
          (rows.filter (fun r => dateLE (get_horizon_start_end s yo hl).1 r.date &&
            dateLE r.date (get_horizon_start_end s yo hl).2))) ms)
        "markettiming_strategy" pmi thr wd dm = .ok plan := hok
    obtain ⟨c0, hc, hthr, hwd, hdm, hne, hplan⟩ := determine_markettiming_ok hok2
    have hlen1 : ∀ (rs : List Row) (msv : ℚ),
        (assign_available_capital rs msv).length = rs.length :=
      fun rs msv => length_assignCap rs msv 0 none rs
    have hpd : ∀ j, j < (monthlyAux (assign_available_capital (compute_percent_drop
        (rows.filter (fun r => dateLE (get_horizon_start_end s yo hl).1 r.date &&
          dateLE r.date (get_horizon_start_end s yo hl).2))) ms) 0 c0 0 0
        (assign_available_capital (compute_percent_drop
          (rows.filter (fun r => dateLE (get_horizon_start_end s yo hl).1 r.date &&
            dateLE r.date (get_horizon_start_end s yo hl).2))) ms)).length →
        pdAt (monthlyAux (assign_available_capital (compute_percent_drop
          (rows.filter (fun r => dateLE (get_horizon_start_end s yo hl).1 r.date &&
            dateLE r.date (get_horizon_start_end s yo hl).2))) ms) 0 c0 0 0
          (assign_available_capital (compute_percent_drop
            (rows.filter (fun r => dateLE (get_horizon_start_end s yo hl).1 r.date &&
              dateLE r.date (get_horizon_start_end s yo hl).2))) ms)) j = none := by
      intro j hj
      rw [length_monthlyAux, hlen1, length_compute_percent_drop] at hj
      rw [pdAt_monthlyAux]
      show pdAt (assignCapAux _ ms 0 none _) j = none
      rw [pdAt_assignCap, pdAt_compute_percent_drop]
      have hjmem : (rows.filter (fun r => dateLE (get_horizon_start_end s yo hl).1 r.date &&
          dateLE r.date (get_horizon_start_end s yo hl).2)).getD j default ∈
          rows.filter (fun r => dateLE (get_horizon_start_end s yo hl).1 r.date &&
          dateLE r.date (get_horizon_start_end s yo hl).2) := by
        rw [List.getD_eq_getElem _ _ hj]
        exact List.getElem_mem hj
      have := hmm _ (List.mem_of_mem_filter hjmem)
      rw [mmAt, this]
      rfl
    rw [triggerIdxs_nil_of_pd_none hpd, dropLoop_nil] at hplan
    subst hplan
    by_cases hi : i < (finalizePlan (monthlyAux (assign_available_capital
        (compute_percent_drop (rows.filter (fun r =>
          dateLE (get_horizon_start_end s yo hl).1 r.date &&
          dateLE r.date (get_horizon_start_end s yo hl).2))) ms) 0 c0 0 0
        (assign_available_capital (compute_percent_drop (rows.filter (fun r =>
          dateLE (get_horizon_start_end s yo hl).1 r.date &&
          dateLE r.date (get_horizon_start_end s yo hl).2))) ms))).length
    · rw [length_finalize, length_monthlyAux] at hi
      rw [buyAt_finalize, buyAt_monthlyAux _ _ _ _ _ _ _ hi,
        decide_eq_false (by norm_num : ¬((0 : ℚ) > 0)), Bool.and_false]
    · rw [buyAt, List.getD_eq_default _ _ (le_of_not_lt hi), buy_default_false]

/-- Witness for C10: a markettiming run over the 3-record series without any
`moving_max` annotation succeeds but never buys. -/
theorem percent_drop_from_input_witness :
    buyAt (okPlan (create_investment_plan exampleRows3 ⟨2000, 1, 1⟩ 0 1
      "markettiming_strategy" 100 (9 / 10) (35 / 1000) 3 9)) 0 = false :=
  percent_drop_from_input.2 exampleRows3 ⟨2000, 1, 1⟩ 0 1 100 (9 / 10)
    (35 / 1000) 3 9 _ (by decide) (by with_unfolding_all rfl) 0

/-! ## C5: the moving-max bootstrap for the leading records -/

theorem getD_set_ne {α : Type} (l : List α) (i j : ℕ) (a d : α) (h : i ≠ j) :
    (l.set i a).getD j d = l.getD j d := by
  simp [List.getD_eq_getElem?_getD, List.getElem?_set_ne h]

theorem getD_set_self {α : Type} (l : List α) (i : ℕ) (a d : α) (h : i < l.length) :
    (l.set i a).getD i d = a := by
  have h2 : i < (l.set i a).length := by simpa using h
  rw [List.getD_eq_getElem _ _ h2, List.getElem_set_self]

theorem listMax_eq_none_iff (l : List ℚ) : listMax l = none ↔ l = [] := by
  cases l <;> simp [listMax]

theorem range_map_getD {α : Type} (f : ℕ → α) (n i : ℕ) (d : α) :
    ((List.range n).map f).getD i d = if i < n then f i else d := by
  by_cases h : i < n
  · have h2 : i < ((List.range n).map f).length := by simpa using h
    rw [List.getD_eq_getElem _ _ h2, List.getElem_map, List.getElem_range, if_pos h]
  · rw [List.getD_eq_default _ _ (by simpa using le_of_not_lt h), if_neg h]

theorem rollingMaxAt_none_iff (highs : List ℚ) (w i : ℕ) (hw : 1 ≤ w)
    (hi : i < highs.length) : rollingMaxAt highs w i = none ↔ i + 1 < w := by
  unfold rollingMaxAt
  by_cases h : w ≤ i + 1
  · rw [if_pos h, listMax_eq_none_iff]
    constructor
    · intro hnil
      exfalso
      have hl : ((highs.take (i + 1)).drop (i + 1 - w)).length = w := by
        rw [List.length_drop, List.length_take]
        omega
      rw [hnil] at hl
      simp at hl
      omega
    · exact fun hlt => absurd h (not_le.mpr hlt)
  · rw [if_neg h]
    exact iff_of_true rfl (by omega)

theorem range_filter_lt (m : ℕ) : ∀ (n : ℕ),
    (List.range n).filter (fun i => decide (i < m)) = List.range (min m n)
  | 0 => by simp
  | n + 1 => by
    rw [List.range_succ, List.filter_append, range_filter_lt m n]
    by_cases h : n < m
    · rw [show (List.filter (fun i => decide (i < m)) [n]) = [n] by simp [h],
        show min m (n + 1) = min m n + 1 by omega, List.range_succ,
        show min m n = n by omega]
    · rw [show (List.filter (fun i => decide (i < m)) [n]) = [] by simp [h],
        show min m (n + 1) = min m n by omega, List.append_nil]

theorem fillNulls_length (highs : List ℚ) : ∀ (idxs : List ℕ) (mm : List (Option ℚ)),
    (fillNulls highs mm idxs).length = mm.length
  | [], _ => rfl
  | idx :: rest, mm => by
    rw [show fillNulls highs mm (idx :: rest) =
        fillNulls highs (mm.set idx (listMax (nullHighs highs mm))) rest from rfl,
      fillNulls_length highs rest _, List.length_set]

theorem fillNulls_getD_not_mem (highs : List ℚ) : ∀ (idxs : List ℕ)
    (mm : List (Option ℚ)) (i : ℕ), (∀ x ∈ idxs, x ≠ i) →
    (fillNulls highs mm idxs).getD i none = mm.getD i none
  | [], _, _, _ => rfl
  | idx :: rest, mm, i, h => by
    rw [show fillNulls highs mm (idx :: rest) =
        fillNulls highs (mm.set idx (listMax (nullHighs highs mm))) rest from rfl,
      fillNulls_getD_not_mem highs rest _ i
        (fun x hx => h x (List.mem_cons_of_mem idx hx)),
      getD_set_ne _ _ _ _ _ (h idx (List.mem_cons_self idx rest))]

theorem nullHighs_nil_of_no_none : ∀ (hs : List ℚ) (ms : List (Option ℚ)),
    ms.length = hs.length → (∀ i, i < hs.length → ms.getD i none ≠ none) →
    nullHighs hs ms = []
  | [], _, _, _ => rfl
  | _ :: _, [], hlen, _ => by simp at hlen
  | h :: hs, m :: ms, hlen, hno => by
    cases m with
    | none => exact absurd rfl (hno 0 (by simp))
    | some v =>
      show nullHighs hs ms = []
      exact nullHighs_nil_of_no_none hs ms (by simpa using hlen)
        (fun i hi => hno (i + 1) (by simpa using hi))

theorem nullHighs_eq_take : ∀ (hs : List ℚ) (ms : List (Option ℚ)) (j : ℕ),
    ms.length = hs.length →
    (∀ i, i < hs.length → (ms.getD i none = none ↔ i < j)) →
    nullHighs hs ms = hs.take j
  | [], ms, j, hlen, _ => by
    have hms : ms = [] := List.eq_nil_of_length_eq_zero (by simpa using hlen)
    subst hms
    simp [nullHighs]
  | _ :: _, [], _, hlen, _ => by simp at hlen
  | h :: hs, m :: ms, j, hlen, hchar => by
    cases m with
    | none =>
      have h0 : 0 < j := (hchar 0 (by simp)).mp rfl
      obtain ⟨jj, rfl⟩ : ∃ jj, j = jj + 1 := ⟨j - 1, by omega⟩
      show h :: nullHighs hs ms = (h :: hs).take (jj + 1)
      rw [List.take_succ_cons]
      exact congrArg (List.cons h) (nullHighs_eq_take hs ms jj (by simpa using hlen)
        (fun i hi => by
          have := hchar (i + 1) (by simpa using hi)
          simpa [Nat.succ_lt_succ_iff] using this))
    | some v =>
      have h0 : ¬0 < j := fun hj => Option.noConfusion ((hchar 0 (by simp)).mpr hj)
      have hj0 : j = 0 := by omega
      subst hj0
      show nullHighs hs ms = []
      exact nullHighs_nil_of_no_none hs ms (by simpa using hlen) (fun i hi hcon => by
        have := (hchar (i + 1) (by simpa using hi)).mp hcon
        omega)

theorem fillNulls_spec (highs : List ℚ) : ∀ (j : ℕ) (mm : List (Option ℚ)),
    mm.length = highs.length → j ≤ highs.length →
    (∀ i, i < highs.length → (mm.getD i none = none ↔ i < j)) →
    ∀ i, i < j → (fillNulls highs mm ((List.range j).reverse)).getD i none =
      listMax (highs.take (i + 1))
  | 0, _, _, _, _ => fun i hi => absurd hi (by omega)
  | j + 1, mm, hlen, hjle, hchar => by
    have hrev : (List.range (j + 1)).reverse = j :: (List.range j).reverse := by
      rw [List.range_succ, List.reverse_append]
      rfl
    have hnh : nullHighs highs mm = highs.take (j + 1) :=
      nullHighs_eq_take highs mm (j + 1) hlen hchar
    have hjlt : j < mm.length := by omega
    have hsome : listMax (highs.take (j + 1)) ≠ none := by
      intro hcon
      rw [listMax_eq_none_iff] at hcon
      have hl : (List.take (j + 1) highs).length = 0 := by rw [hcon]; rfl
      rw [List.length_take] at hl
      omega
    have hchar2 : ∀ i, i < highs.length →
        ((mm.set j (listMax (nullHighs highs mm))).getD i none = none ↔ i < j) := by
      intro i hi
      by_cases hij : i = j
      · subst hij
        rw [getD_set_self _ _ _ _ hjlt, hnh]
        exact iff_of_false hsome (by omega)
      · rw [getD_set_ne _ _ _ _ _ (fun hh => hij hh.symm)]
        have hc := hchar i hi
        constructor
        · intro hn
          have := hc.mp hn
          omega
        · intro hn
          exact hc.mpr (by omega)
    intro i hi
    rw [hrev, show fillNulls highs mm (j :: (List.range j).reverse) =
        fillNulls highs (mm.set j (listMax (nullHighs highs mm)))
          ((List.range j).reverse) from rfl]
    by_cases hij : i = j
    · subst hij
      rw [fillNulls_getD_not_mem highs _ _ i (fun x hx => by
          have hxlt := List.mem_range.mp (List.mem_reverse.mp hx)
          omega),
        getD_set_self _ _ _ _ hjlt, hnh]
    · exact fillNulls_spec highs j (mm.set j (listMax (nullHighs highs mm)))
        (by rw [List.length_set]; exact hlen) (by omega) hchar2 i (by omega)

theorem movingMaxColumn_length (highs : List ℚ) (w : ℕ) :
    (movingMaxColumn highs w).length = highs.length := by
  rw [show movingMaxColumn highs w = fillNulls highs
      ((List.range highs.length).map (rollingMaxAt highs w))
      (((List.range highs.length).filter (fun i =>
        ((List.range highs.length).map (rollingMaxAt highs w)).getD i none =
          Option.none)).reverse) from rfl, fillNulls_length]
  simp

theorem movingMaxColumn_leading (highs : List ℚ) (w : ℕ) (hw : 1 ≤ w) :
    ∀ j, j + 1 < w → j < highs.length →
    (movingMaxColumn highs w).getD j none = listMax (highs.take (j + 1)) := by
  intro j hjw hjn
  have hchar : ∀ i, i < highs.length →
      (((List.range highs.length).map (rollingMaxAt highs w)).getD i none = none ↔
        i < min (w - 1) highs.length) := by
    intro i hi
    rw [range_map_getD, if_pos hi, rollingMaxAt_none_iff highs w i hw hi]
    omega
  have hfilter : ((List.range highs.length).filter
      (fun i => ((List.range highs.length).map (rollingMaxAt highs w)).getD i none =
        Option.none)) = List.range (min (w - 1) highs.length) := by
    have hcg : ∀ i ∈ List.range highs.length,
        (decide (((List.range highs.length).map (rollingMaxAt highs w)).getD i none =
          Option.none)) = decide (i < min (w - 1) highs.length) :=
      fun i hi => decide_eq_decide.mpr (hchar i (List.mem_range.mp hi))
    rw [List.filter_congr hcg, range_filter_lt]
    congr 1
    omega
  show (fillNulls highs ((List.range highs.length).map (rollingMaxAt highs w))
      (((List.range highs.length).filter (fun i =>
        ((List.range highs.length).map (rollingMaxAt highs w)).getD i none =
          Option.none)).reverse)).getD j none = _
  rw [hfilter]
  exact fillNulls_spec highs (min (w - 1) highs.length) _ (by simp) (by omega)
    hchar j (by omega)

theorem mmAt_compute_moving_max (rows : List Row) (w j : ℕ) (hj : j < rows.length) :
    mmAt (compute_moving_max rows w) j =
      (movingMaxColumn (rows.map Row.High) w).getD j none := by
  unfold compute_moving_max mmAt
  have hlen : j < (List.zipWith (fun r m => { r with movingMax := m }) rows
      (movingMaxColumn (rows.map Row.High) w)).length := by
    rw [List.length_zipWith, movingMaxColumn_length]
    simp
    omega
  have hcol : j < (movingMaxColumn (rows.map Row.High) w).length := by
    rw [movingMaxColumn_length]
    simpa using hj
  rw [List.getD_eq_getElem _ _ hlen, List.getElem_zipWith, List.getD_eq_getElem _ _ hcol]

/-- C5 (counterexample): on highs 1, 5, 3, 4, 6 with window 3, the two
records lacking a full trailing window do NOT receive one shared bootstrap
value: record 1 gets 5 (the max high over the prefix) but record 0 gets its
own high 1, contradicting the claim that every leading record is assigned
the same max-high-over-the-entire-prefix value. -/
theorem moving_max_bootstrap_counterexample :
    mmAt (compute_moving_max exampleHighRows 3) 0 = some 1 ∧
    mmAt (compute_moving_max exampleHighRows 3) 1 = some 5 ∧
    mmAt (compute_moving_max exampleHighRows 3) 0 ≠
      mmAt (compute_moving_max exampleHighRows 3) 1 :=
  ⟨by with_unfolding_all decide, by with_unfolding_all decide,
    by with_unfolding_all decide⟩

/-- C5 (amended): the annotator processes the `windowSize - 1` leading
records in reverse chronological order, setting each `movingMax` to the max
high among the records still lacking one; because each assignment removes
that record from the null set, leading record `j` receives the *expanding*
prefix maximum `max(high[0..j])` — the leading records do not in general
share a single value. -/
theorem moving_max_bootstrap_prefix (rows : List Row) (w j : ℕ) (hw : 1 ≤ w)
    (hjw : j + 1 < w) (hj : j < rows.length) :
    mmAt (compute_moving_max rows w) j =
      listMax ((rows.map Row.High).take (j + 1)) := by
  rw [mmAt_compute_moving_max rows w j hj]
  exact movingMaxColumn_leading (rows.map Row.High) w hw j hjw (by simpa using hj)

/-- Witness for C5 amended: leading record 0 of the example gets the prefix
maximum over just its own high. -/
theorem moving_max_bootstrap_prefix_witness :
    mmAt (compute_moving_max exampleHighRows 3) 0 =
      listMax ((exampleHighRows.map Row.High).take 1) :=
  moving_max_bootstrap_prefix exampleHighRows 3 0 (by norm_num) (by norm_num)
    (by decide)

/-! ## C4: the ledger invariants of the planner -/

theorem iaSum_zero (rows : List Row) : iaSum rows 0 = 0 := rfl

theorem iaSum_succ (rows : List Row) (k : ℕ) :
    iaSum rows (k + 1) = iaSum rows k + (iaAt rows k).getD 0 := by
  rw [iaSum, List.range_succ, List.map_append, List.sum_append, iaSum]
  simp

theorem iaSum_congr {rows' rows : List Row} : ∀ (k : ℕ),
    (∀ j, j < k → (iaAt rows' j).getD 0 = (iaAt rows j).getD 0) →
    iaSum rows' k = iaSum rows k
  | 0, _ => rfl
  | k + 1, h => by
    rw [iaSum_succ, iaSum_succ, iaSum_congr k (fun j hj => h j (by omega)),
      h k (by omega)]

theorem iaSum_update {rows' rows : List Row} {n : ℕ} {a : ℚ}
    (ha : (iaAt rows' n).getD 0 = a) (h0 : (iaAt rows n).getD 0 = 0)
    (hne : ∀ j, j ≠ n → (iaAt rows' j).getD 0 = (iaAt rows j).getD 0) :
    ∀ (k : ℕ), n < k → iaSum rows' k = iaSum rows k + a
  | 0, h => absurd h (by omega)
  | k + 1, h => by
    by_cases hnk : n = k
    · subst hnk
      rw [iaSum_succ, iaSum_succ, iaSum_congr n (fun j hj => hne j (by omega)),
        ha, h0]
      ring
    · rw [iaSum_succ, iaSum_succ, iaSum_update ha h0 hne k (by omega),
        hne k (fun hh => hnk hh.symm)]
      ring

theorem capAt_monthlyAux (all : List Row) (p c0 : ℚ) : ∀ (i : ℕ) (csum : ℚ)
    (rs : List Row) (k : ℕ),
    capAt (monthlyAux all p c0 i csum rs) k = capAt rs k
  | _, _, [], _ => rfl
  | i, csum, r :: rs, 0 => rfl
  | i, csum, r :: rs, k + 1 => capAt_monthlyAux all p c0 (i + 1) _ rs k

theorem iaAt_monthlyAux (all : List Row) (p c0 : ℚ) : ∀ (rs : List Row) (i : ℕ)
    (csum : ℚ) (k : ℕ), k < rs.length →
    iaAt (monthlyAux all p c0 i csum rs) k = some (monthlyVal all p c0 (i + k))
  | [], _, _, _, h => by simp at h
  | r :: rs, i, csum, 0, _ => by
    show some (if isMonthFirst all i then c0 * p else 0) = _
    rw [monthlyVal, Nat.add_zero]
  | r :: rs, i, csum, k + 1, h => by
    have step : iaAt (monthlyAux all p c0 i csum (r :: rs)) (k + 1) =
        iaAt (monthlyAux all p c0 (i + 1)
          (csum + (if isMonthFirst all i then c0 * p else 0)) rs) k := rfl
    rw [step, iaAt_monthlyAux all p c0 rs (i + 1) _ k (by simpa using h),
      show i + 1 + k = i + (k + 1) by omega]

theorem monthlyCum_zero (all : List Row) (p c0 : ℚ) (i : ℕ) :
    monthlyCum all p c0 i 0 = 0 := rfl

theorem monthlyCum_succ (all : List Row) (p c0 : ℚ) (i k : ℕ) :
    monthlyCum all p c0 i (k + 1) =
      monthlyCum all p c0 i k + monthlyVal all p c0 (i + k) := by
  rw [monthlyCum, List.range_succ, List.map_append, List.sum_append, monthlyCum]
  simp

theorem monthlyCum_succ_left (all : List Row) (p c0 : ℚ) : ∀ (i k : ℕ),
    monthlyCum all p c0 i (k + 1) =
      monthlyVal all p c0 i + monthlyCum all p c0 (i + 1) k
  | i, 0 => by simp [monthlyCum_succ, monthlyCum_zero]
  | i, k + 1 => by
    rw [monthlyCum_succ, monthlyCum_succ_left all p c0 i k, monthlyCum_succ,
      show i + 1 + k = i + (k + 1) by omega]
    ring

theorem cashAt_monthlyAux (all : List Row) (p c0 : ℚ) : ∀ (rs : List Row) (i : ℕ)
    (csum : ℚ) (k : ℕ), k < rs.length →
    cashAt (monthlyAux all p c0 i csum rs) k =
      (capAt rs k).map (fun c => c - (csum + monthlyCum all p c0 i (k + 1)))
  | [], _, _, _, h => by simp at h
  | r :: rs, i, csum, 0, _ => by
    show r.capital.map (fun c => c -
        (csum + (if isMonthFirst all i then c0 * p else 0))) = _
    rw [show capAt (r :: rs) 0 = r.capital from rfl]
    have : monthlyCum all p c0 i 1 = monthlyVal all p c0 i := by
      rw [show (1 : ℕ) = 0 + 1 from rfl, monthlyCum_succ, monthlyCum_zero]
      simp
    rw [this, monthlyVal]
  | r :: rs, i, csum, k + 1, h => by
    have step : cashAt (monthlyAux all p c0 i csum (r :: rs)) (k + 1) =
        cashAt (monthlyAux all p c0 (i + 1)
          (csum + (if isMonthFirst all i then c0 * p else 0)) rs) k := rfl
    rw [step, cashAt_monthlyAux all p c0 rs (i + 1) _ k (by simpa using h),
      show capAt (r :: rs) (k + 1) = capAt rs k from rfl,
      monthlyCum_succ_left all p c0 i (k + 1)]
    congr 1
    funext c
    rw [monthlyVal]
    ring

theorem buyAt_monthlyAux_zero (all : List Row) (c0 : ℚ) (rs : List Row) (i : ℕ)
    (csum : ℚ) (k : ℕ) (h : k < rs.length) :
    buyAt (monthlyAux all 0 c0 i csum rs) k = false := by
  rw [buyAt_monthlyAux all 0 c0 rs i csum k h,
    decide_eq_false (by norm_num : ¬((0 : ℚ) > 0)), Bool.and_false]

theorem triggerIdxs_mem {rows : List Row} {thr : ℚ} {t : ℕ}
    (h : t ∈ triggerIdxs rows thr) :
    t < rows.length ∧ ∃ v, pdAt rows t = some v ∧ thr ≤ v := by
  rw [triggerIdxs, List.mem_filter] at h
  refine ⟨List.mem_range.mp h.1, ?_⟩
  have h2 := h.2
  cases hpd : pdAt rows t with
  | none => rw [hpd] at h2; simp at h2
  | some v =>
    rw [hpd] at h2
    simp at h2
    exact ⟨v, rfl, h2⟩

theorem triggerIdxs_sorted (rows : List Row) (thr : ℚ) :
    List.Pairwise (· < ·) (triggerIdxs rows thr) :=
  List.Pairwise.filter _ (List.pairwise_lt_range rows.length)

theorem iaSum_monthly (rows : List Row) (p c0 : ℚ) : ∀ (k : ℕ), k ≤ rows.length →
    iaSum (monthlyAux rows p c0 0 0 rows) k = monthlyCum rows p c0 0 k
  | 0, _ => rfl
  | k + 1, h => by
    rw [iaSum_succ, monthlyCum_succ, iaSum_monthly rows p c0 k (by omega),
      iaAt_monthlyAux rows p c0 rows 0 0 k (by omega)]
    simp

theorem monthlyAux_planInv (rows : List Row) (p c0 : ℚ) :
    planInv (monthlyAux rows p c0 0 0 rows) := by
  intro i hi
  rw [length_monthlyAux] at hi
  rw [cashAt_monthlyAux rows p c0 rows 0 0 i hi, capAt_monthlyAux,
    iaSum_monthly rows p c0 (i + 1) (by omega)]
  simp

theorem planInv_execStep {dm : Int} {t : ℕ} {rows : List Row}
    (hlen : t + 1 < rows.length)
    (hcap : ∀ i, i < rows.length → (capAt rows i).isSome)
    (hpd : (pdAt rows t).isSome)
    (hia0 : iaAt rows (t + 1) = some 0)
    (hinv : planInv rows) : planInv (execStep dm t rows) := by
  obtain ⟨pdv, hpdv⟩ := Option.isSome_iff_exists.mp hpd
  obtain ⟨cv, hcv⟩ := Option.isSome_iff_exists.mp (hcap (t + 1) hlen)
  have hip : execIP dm t rows = some (min 1 (pdv * (dm : ℚ))) := by
    rw [execIP, hpdv]
    rfl
  have hcash : cashAt rows (t + 1) = some (cv - iaSum rows (t + 2)) := by
    rw [hinv (t + 1) hlen, hcv]
    rfl
  have hamt : execAmt dm t rows =
      some ((cv - iaSum rows (t + 2)) * min 1 (pdv * (dm : ℚ))) := by
    rw [execAmt_eq, hcash, hip]
    rfl
  intro i hilen
  rw [length_execStep] at hilen
  have hsum : ∀ k, t + 1 < k → iaSum (execStep dm t rows) k =
      iaSum rows k + (cv - iaSum rows (t + 2)) * min 1 (pdv * (dm : ℚ)) :=
    fun k hlt =>
      iaSum_update (by rw [iaAt_execStep_self dm t rows hlen, hamt]; rfl)
        (by rw [hia0]; rfl)
        (fun j hj => by rw [iaAt_execStep_ne dm t rows j hj]) k hlt
  have hsum2 : ∀ k, k ≤ t + 1 → iaSum (execStep dm t rows) k = iaSum rows k :=
    fun k hk =>
      iaSum_congr k (fun j hj => by rw [iaAt_execStep_ne dm t rows j (by omega)])
  by_cases hit : t + 1 ≤ i
  · rw [cashAt_execStep_ge dm t rows i hit hilen, capAt_execStep,
      hinv i hilen, hamt, hsum (i + 1) (by omega)]
    cases hcapi : capAt rows i with
    | none => rfl
    | some c =>
      show osub (some (c - iaSum rows (i + 1))) _ = _
      simp [osub]
      ring
  · rw [cashAt_execStep_lt dm t rows i (by omega), capAt_execStep,
      hinv i hilen, hsum2 (i + 1) (by omega)]

theorem dropLoop_planInv (mode : String) (wd dm : Int) : ∀ (ts : List ℕ)
    (li lb : Int) (rows : List Row),
    li = (rows.length : Int) - 1 →
    List.Pairwise (· < ·) ts →
    (∀ t ∈ ts, t < rows.length) →
    (∀ t ∈ ts, (pdAt rows t).isSome) →
    (∀ t ∈ ts, t + 1 < rows.length →
      (iaAt rows (t + 1) = some 0 ∨
        (mode = "hybrid_strategy" ∧ buyAt rows (t + 1) = true))) →
    (∀ i, i < rows.length → (capAt rows i).isSome) →
    planInv rows →
    planInv (dropLoop mode wd dm li ts lb rows).1 ∧
    (dropLoop mode wd dm li ts lb rows).1.length = rows.length
  | [], _, _, rows, _, _, _, _, _, _, hinv => ⟨hinv, rfl⟩
  | t :: rest, li, lb, rows, hli, hsort, htlen, hpd, hxe, hcap, hinv => by
    by_cases h1 : wd ≤ (t : Int) - lb ∧ (t : Int) ≠ li
    · by_cases h2 : mode = "hybrid_strategy" ∧ buyAt rows (t + 1) = true
      · rw [dropLoop_cons_hybridskip h1 h2]
        exact dropLoop_planInv mode wd dm rest li lb rows hli hsort.of_cons
          (fun x hx => htlen x (List.mem_cons_of_mem t hx))
          (fun x hx => hpd x (List.mem_cons_of_mem t hx))
          (fun x hx => hxe x (List.mem_cons_of_mem t hx)) hcap hinv
      · rw [dropLoop_cons_exec h1 h2]
        have htl : t < rows.length := htlen t (List.mem_cons_self t rest)
        have ht1 : t + 1 < rows.length := by
          have hne := h1.2
          rw [hli] at hne
          omega
        have hia : iaAt rows (t + 1) = some 0 := by
          rcases hxe t (List.mem_cons_self t rest) ht1 with hl | hr
          · exact hl
          · exact absurd hr h2
        have hinv2 := @planInv_execStep dm t rows ht1 hcap
          (hpd t (List.mem_cons_self t rest)) hia hinv
        have hrec := dropLoop_planInv mode wd dm rest li (t : Int) (execStep dm t rows)
          (by rw [length_execStep]; exact hli) hsort.of_cons
          (fun x hx => by
            rw [length_execStep]
            exact htlen x (List.mem_cons_of_mem t hx))
          (fun x hx => by
            rw [pdAt_execStep]
            exact hpd x (List.mem_cons_of_mem t hx))
          (fun x hx hlen2 => by
            have htx : t < x := (List.pairwise_cons.mp hsort).1 x hx
            rw [length_execStep] at hlen2
            rcases hxe x (List.mem_cons_of_mem t hx) hlen2 with hl | hr
            · exact Or.inl (by
                rw [iaAt_execStep_ne dm t rows (x + 1) (by omega)]
                exact hl)
            · exact Or.inr ⟨hr.1, by
                rw [buyAt_execStep_ne dm t rows (x + 1) (by omega)]
                exact hr.2⟩)
          (fun i hi => by
            rw [capAt_execStep]
            rw [length_execStep] at hi
            exact hcap i hi)
          hinv2
        exact ⟨hrec.1, by rw [hrec.2, length_execStep]⟩
    · rw [dropLoop_cons_ineligible h1]
      exact dropLoop_planInv mode wd dm rest li lb rows hli hsort.of_cons
        (fun x hx => htlen x (List.mem_cons_of_mem t hx))
        (fun x hx => hpd x (List.mem_cons_of_mem t hx))
        (fun x hx => hxe x (List.mem_cons_of_mem t hx)) hcap hinv

theorem iaSum_finalize (rows : List Row) (k : ℕ) (hk : k ≤ rows.length) :
    iaSum (finalizePlan rows) k = iaSum rows k :=
  iaSum_congr k (fun j hj => by rw [iaAt_finalize rows j (by omega)]; rfl)

theorem planInv_finalize (rows : List Row) (hinv : planInv rows) :
    planInv (finalizePlan rows) := by
  intro i hi
  rw [length_finalize] at hi
  rw [cashAt_finalize, capAt_finalize, iaSum_finalize rows (i + 1) (by omega)]
  exact hinv i hi

theorem finalize_share (rows : List Row) (i : ℕ) (hi : i < rows.length) :
    (openAt (finalizePlan rows) i ≠ 0 →
      shareAt (finalizePlan rows) i * openAt (finalizePlan rows) i =
        (iaAt (finalizePlan rows) i).getD 0) ∧
    ((iaAt (finalizePlan rows) i).getD 0 = 0 → shareAt (finalizePlan rows) i = 0) := by
  rw [shareAt_finalize rows i hi, iaAt_finalize rows i hi, openAt_finalize]
  constructor
  · intro hne
    simp only [Option.getD_some]
    exact div_mul_cancel₀ _ hne
  · intro h0
    simp only [Option.getD_some] at h0
    rw [h0, zero_div]

theorem monthlyAux_hxe (rows : List Row) (p c0 : ℚ) (hp0 : 0 ≤ p) (t : ℕ)
    (ht : t + 1 < (monthlyAux rows p c0 0 0 rows).length) :
    iaAt (monthlyAux rows p c0 0 0 rows) (t + 1) = some 0 ∨
      (0 < p ∧ buyAt (monthlyAux rows p c0 0 0 rows) (t + 1) = true) := by
  rw [length_monthlyAux] at ht
  rw [iaAt_monthlyAux rows p c0 rows 0 0 (t + 1) ht,
    buyAt_monthlyAux rows p c0 rows 0 0 (t + 1) ht, monthlyVal]
  by_cases hf : isMonthFirst rows (0 + (t + 1))
  · by_cases hp : 0 < p
    · refine Or.inr ⟨hp, ?_⟩
      have hf2 : isMonthFirst rows (t + 1) = true := by
        rw [show t + 1 = 0 + (t + 1) by omega]
        exact hf
      simp [hf2, hp]
    · have hpz : p = 0 := le_antisymm (not_lt.mp hp) hp0
      exact Or.inl (by rw [if_pos hf, hpz, mul_zero])
  · exact Or.inl (by rw [if_neg hf])

theorem assignCap_isSome_acc (all : List Row) (ms : ℚ) : ∀ (rs : List Row) (i : ℕ)
    (acc : Option ℚ), acc.isSome → ∀ k, k < rs.length →
    (capAt (assignCapAux all ms i acc rs) k).isSome
  | [], _, _, _, k, h => by simp at h
  | r :: rs, i, acc, hacc, 0, _ => by
    show (if isMonthFirst all i then some (acc.getD 0 + ms) else acc).isSome
    by_cases hf : isMonthFirst all i
    · rw [if_pos hf]
      rfl
    · rw [if_neg hf]
      exact hacc
  | r :: rs, i, acc, hacc, k + 1, h => by
    show (capAt (assignCapAux all ms (i + 1)
      (if isMonthFirst all i then some (acc.getD 0 + ms) else acc) rs) k).isSome
    refine assignCap_isSome_acc all ms rs (i + 1) _ ?_ k (by simpa using h)
    by_cases hf : isMonthFirst all i
    · rw [if_pos hf]
      rfl
    · rw [if_neg hf]
      exact hacc

theorem assign_available_capital_isSome (rows : List Row) (ms : ℚ) (hne : rows ≠ []) :
    ∀ k, k < rows.length → (capAt (assign_available_capital rows ms) k).isSome := by
  cases rows with
  | nil => exact absurd rfl hne
  | cons r rs =>
    intro k hk
    cases k with
    | zero => rfl
    | succ k =>
      show (capAt (assignCapAux (r :: rs) ms 1
        (if isMonthFirst (r :: rs) 0 then some ((none : Option ℚ).getD 0 + ms)
          else none) rs) k).isSome
      exact assignCap_isSome_acc (r :: rs) ms rs 1 _ (by rfl) k (by simpa using hk)

theorem determine_hybrid_ok {rows plan : List Row} {pmi thr : ℚ} {wd dm : Int}
    (hok : determine_buy_and_investment_amount rows "hybrid_strategy" pmi thr wd dm =
      .ok plan) :
    (pmi = 1 ∧ ∃ c0, (rows.filterMap (fun r => r.capital)).head? = some c0 ∧
      plan = finalizePlan (monthlyAux rows 1 c0 0 0 rows)) ∨
    (pmi ≠ 1 ∧ 0 ≤ pmi ∧ pmi ≤ 1 ∧
      ∃ c0, (rows.filterMap (fun r => r.capital)).head? = some c0 ∧
        plan = finalizePlan ((dropLoop "hybrid_strategy" wd dm
          (((monthlyAux rows pmi c0 0 0 rows).length : Int) - 1)
          (triggerIdxs (monthlyAux rows pmi c0 0 0 rows) thr) (-wd)
          (monthlyAux rows pmi c0 0 0 rows)).1)) := by
  by_cases hp1 : pmi = 1
  · subst hp1
    refine Or.inl ⟨rfl, ?_⟩
    cases hc : (rows.filterMap (fun r => r.capital)).head? with
    | none =>
      exfalso
      have hcm : create_monthly_investment_plan rows 1 = .error "IndexError" := by
        rw [create_monthly_investment_plan, if_pos ⟨by norm_num, le_refl 1⟩, hc]
      simp [determine_buy_and_investment_amount, strategyModes, hcm, Except.map] at hok
    | some c0 =>
      have hcm := create_monthly_ok (by norm_num : (0 : ℚ) ≤ 1) (le_refl (1 : ℚ)) hc
      simp [determine_buy_and_investment_amount, strategyModes, hcm, Except.map] at hok
      exact ⟨c0, rfl, hok.symm⟩
  · by_cases hpr : 0 ≤ pmi ∧ pmi ≤ 1
    case neg =>
      exfalso
      have hcm : create_monthly_investment_plan rows pmi =
          .error "perc_monthly_invest must be within 0 and 1" := by
        rw [create_monthly_investment_plan, if_neg hpr]
      simp [determine_buy_and_investment_amount, strategyModes, hp1, hcm,
        Except.map] at hok
    case pos =>
      refine Or.inr ⟨hp1, hpr.1, hpr.2, ?_⟩
      cases hc : (rows.filterMap (fun r => r.capital)).head? with
      | none =>
        exfalso
        have hcm : create_monthly_investment_plan rows pmi = .error "IndexError" := by
          rw [create_monthly_investment_plan, if_pos hpr, hc]
        simp [determine_buy_and_investment_amount, strategyModes, hp1, hcm,
          Except.map] at hok
      | some c0 =>
        have hcm := create_monthly_ok hpr.1 hpr.2 hc
        by_cases hthr : 0 ≤ thr ∧ thr ≤ 1
        case neg =>
          exfalso
          have hcd : create_drop_threshold_investment_plan
              (monthlyAux rows pmi c0 0 0 rows) "hybrid_strategy" thr wd dm =
              .error "perc_drop_threshold must be within 0 and 1" := by
            rw [create_drop_threshold_investment_plan, if_pos hthr]
          simp [determine_buy_and_investment_amount, strategyModes, hp1, hcm, hcd,
            Except.map] at hok
        case pos =>
          by_cases hwd : 1 ≤ wd
          case neg =>
            exfalso
            have hcd : create_drop_threshold_investment_plan
                (monthlyAux rows pmi c0 0 0 rows) "hybrid_strategy" thr wd dm =
                .error "waiting_days must be a positive int" := by
              rw [create_drop_threshold_investment_plan,
                if_neg (not_not_intro hthr), if_pos hwd]
            simp [determine_buy_and_investment_amount, strategyModes, hp1, hcm, hcd,
              Except.map] at hok
          case pos =>
            by_cases hdm : 1 ≤ dm
            case neg =>
              exfalso
              have hcd : create_drop_threshold_investment_plan
                  (monthlyAux rows pmi c0 0 0 rows) "hybrid_strategy" thr wd dm =
                  .error "drop_multiplier must be a positive int" := by
                rw [create_drop_threshold_investment_plan,
                  if_neg (not_not_intro hthr), if_neg (not_not_intro hwd), if_pos hdm]
              simp [determine_buy_and_investment_amount, strategyModes, hp1, hcm, hcd,
                Except.map] at hok
            case pos =>
              by_cases hnil : monthlyAux rows pmi c0 0 0 rows = []
              case pos =>
                exfalso
                have hcd : create_drop_threshold_investment_plan
                    (monthlyAux rows pmi c0 0 0 rows) "hybrid_strategy" thr wd dm =
                    .error "IndexError" := by
                  rw [create_drop_threshold_investment_plan,
                    if_neg (not_not_intro hthr), if_neg (not_not_intro hwd),
                    if_neg (not_not_intro hdm), if_pos (by rw [hnil]; rfl)]
                simp [determine_buy_and_investment_amount, strategyModes, hp1, hcm,
                  hcd, Except.map] at hok
              case neg =>
                have hcd := @create_drop_ok (monthlyAux rows pmi c0 0 0 rows)
                  "hybrid_strategy" thr wd dm hthr.1 hthr.2 hwd hdm hnil
                simp [determine_buy_and_investment_amount, strategyModes, hp1, hcm,
                  hcd, Except.map] at hok
                exact ⟨c0, rfl, hok.symm⟩

/-- C4: after any successful planner run (any of the three modes, any
parameters) on records whose available capital is defined everywhere — as
the capital-accrual stage guarantees on a non-empty series, second
conjunct — every plan record satisfies
`cash_t = availableCapital_t - cumulativeInvestmentAmount_t`, every record
with a nonzero open satisfies `shareAmount_t * open_t = investmentAmount_t`,
and `shareAmount_t = 0` whenever `investmentAmount_t = 0`. -/
theorem planner_ledger_invariant :
    (∀ (rows : List Row) (mode : String) (pmi thr : ℚ) (wd dm : Int)
        (plan : List Row),
      (∀ i, i < rows.length → (capAt rows i).isSome) →
      determine_buy_and_investment_amount rows mode pmi thr wd dm = .ok plan →
      ∀ i, i < plan.length →
        cashAt plan i = (capAt plan i).map (fun c => c - iaSum plan (i + 1)) ∧
        (openAt plan i ≠ 0 →
          shareAt plan i * openAt plan i = (iaAt plan i).getD 0) ∧
        ((iaAt plan i).getD 0 = 0 → shareAt plan i = 0)) ∧
    (∀ (rows : List Row) (ms : ℚ), rows ≠ [] →
      ∀ i, i < rows.length →
        (capAt (assign_available_capital rows ms) i).isSome) := by
  constructor
  · intro rows mode pmi thr wd dm plan hcap hok i hi
    suffices hmain : planInv plan ∧ ∃ X, plan = finalizePlan X by
      obtain ⟨hinv, X, hX⟩ := hmain
      subst hX
      have hiX : i < X.length := by rwa [length_finalize] at hi
      exact ⟨hinv i hi, (finalize_share X i hiX).1, (finalize_share X i hiX).2⟩
    have hmem : mode ∈ strategyModes := by
      by_contra hmem
      rw [determine_buy_and_investment_amount, if_neg hmem] at hok
      exact Except.noConfusion hok
    have hmode : mode = "monthly_invest_strategy" ∨ mode = "markettiming_strategy" ∨
        mode = "hybrid_strategy" := by simpa [strategyModes] using hmem
    rcases hmode with rfl | rfl | rfl
    · obtain ⟨c0, hc, hplan⟩ := determine_monthly_ok hok
      refine ⟨?_, _, hplan⟩
      rw [hplan]
      exact planInv_finalize _ (monthlyAux_planInv rows 1 c0)
    · obtain ⟨c0, hc, hthr, hwd, hdm, hne, hplan⟩ := determine_markettiming_ok hok
      have hdrop := dropLoop_planInv "markettiming_strategy" wd dm
        (triggerIdxs (monthlyAux rows 0 c0 0 0 rows) thr)
        (((monthlyAux rows 0 c0 0 0 rows).length : Int) - 1) (-wd)
        (monthlyAux rows 0 c0 0 0 rows)
        rfl (triggerIdxs_sorted _ _)
        (fun t ht => (triggerIdxs_mem ht).1)
        (fun t ht => by
          obtain ⟨v, hv, _⟩ := (triggerIdxs_mem ht).2
          rw [hv]
          rfl)
        (fun t ht hlt => by
          rcases monthlyAux_hxe rows 0 c0 (le_refl 0) t hlt with hl | hr
          · exact Or.inl hl
          · exact absurd hr.1 (by norm_num))
        (fun j hj => by
          rw [capAt_monthlyAux]
          rw [length_monthlyAux] at hj
          exact hcap j hj)
        (monthlyAux_planInv rows 0 c0)
      refine ⟨?_, _, hplan⟩
      rw [hplan]
      exact planInv_finalize _ hdrop.1
    · rcases determine_hybrid_ok hok with ⟨hp1, c0, hc, hplan⟩ |
        ⟨hne1, hp0, hp1b, c0, hc, hplan⟩
      · refine ⟨?_, _, hplan⟩
        rw [hplan]
        exact planInv_finalize _ (monthlyAux_planInv rows 1 c0)
      · have hdrop := dropLoop_planInv "hybrid_strategy" wd dm
          (triggerIdxs (monthlyAux rows pmi c0 0 0 rows) thr)
          (((monthlyAux rows pmi c0 0 0 rows).length : Int) - 1) (-wd)
          (monthlyAux rows pmi c0 0 0 rows)
          rfl (triggerIdxs_sorted _ _)
          (fun t ht => (triggerIdxs_mem ht).1)
          (fun t ht => by
            obtain ⟨v, hv, _⟩ := (triggerIdxs_mem ht).2
            rw [hv]
            rfl)
          (fun t ht hlt => by
            rcases monthlyAux_hxe rows pmi c0 hp0 t hlt with hl | hr
            · exact Or.inl hl
            · exact Or.inr ⟨rfl, hr.2⟩)
          (fun j hj => by
            rw [capAt_monthlyAux]
            rw [length_monthlyAux] at hj
            exact hcap j hj)
          (monthlyAux_planInv rows pmi c0)
        refine ⟨?_, _, hplan⟩
        rw [hplan]
        exact planInv_finalize _ hdrop.1
  · exact fun rows ms hne => assign_available_capital_isSome rows ms hne

/-- Witness for C4: the invariants hold at record 2 of the concrete
markettiming run (the day the drawdown buy executes). -/
theorem planner_ledger_invariant_witness :
    cashAt exampleTimingPlan 2 =
      (capAt exampleTimingPlan 2).map (fun c => c - iaSum exampleTimingPlan 3) ∧
    (openAt exampleTimingPlan 2 ≠ 0 →
      shareAt exampleTimingPlan 2 * openAt exampleTimingPlan 2 =
        (iaAt exampleTimingPlan 2).getD 0) ∧
    ((iaAt exampleTimingPlan 2).getD 0 = 0 → shareAt exampleTimingPlan 2 = 0) :=
  planner_ledger_invariant.1 (assign_available_capital exampleRowsPD 100)
    "markettiming_strategy" (9 / 10) (5 / 100) 3 2 exampleTimingPlan
    (by with_unfolding_all decide) (by with_unfolding_all rfl) 2
    (by with_unfolding_all decide)

/-! ## C9: the yearly performance evaluation -/

theorem sortedYears_pairwise_lt (rows : List Row) :
    List.Pairwise (· < ·) (sortedYears rows) := by
  simp only [sortedYears]
  have hs : List.Sorted (· ≤ ·)
      (((rows.map (fun r => r.date.y)).dedup).insertionSort (· ≤ ·)) :=
    List.sorted_insertionSort _ _
  have hn : (((rows.map (fun r => r.date.y)).dedup).insertionSort (· ≤ ·)).Nodup :=
    (List.Perm.nodup_iff (List.perm_insertionSort _ _)).mpr (List.nodup_dedup _)
  exact (List.Pairwise.and hs hn).imp (fun h => lt_of_le_of_ne h.1 h.2)

theorem mem_sortedYears {rows : List Row} {y : Int} :
    y ∈ sortedYears rows ↔ y ∈ rows.map (fun r => r.date.y) := by
  simp only [sortedYears]
  rw [List.Perm.mem_iff (List.perm_insertionSort _ _), List.mem_dedup]

theorem sorted_take_eq_filter : ∀ (ys : List Int), List.Pairwise (· < ·) ys →
    ∀ (k : ℕ) (p : Int), k < ys.length → ys.getD k 0 = p →
    ys.take (k + 1) = ys.filter (fun y => decide (y ≤ p))
  | [], _, k, _, hk, _ => by simp at hk
  | y :: ys, hp, 0, p, _, hpv => by
    have hall := (List.pairwise_cons.mp hp).1
    rw [List.getD_cons_zero] at hpv
    subst hpv
    rw [List.take_succ_cons, List.take_zero,
      List.filter_cons_of_pos (by simp),
      List.filter_eq_nil.mpr (fun a ha => by
        have hlt := hall a ha
        simp
        omega)]
  | y :: ys, hp, k + 1, p, hk, hpv => by
    have hall := (List.pairwise_cons.mp hp).1
    rw [List.getD_cons_succ] at hpv
    have hklen : k < ys.length := by simpa using hk
    have hmem : p ∈ ys := by
      rw [← hpv, List.getD_eq_getElem _ _ hklen]
      exact List.getElem_mem hklen
    rw [List.take_succ_cons,
      show List.filter (fun a => decide (a ≤ p)) (y :: ys) =
          y :: List.filter (fun a => decide (a ≤ p)) ys from
        List.filter_cons_of_pos (decide_eq_true (le_of_lt (hall p hmem))),
      sorted_take_eq_filter ys (List.pairwise_cons.mp hp).2 k p hklen hpv]

theorem sum_over_groups (f : Row → ℚ) : ∀ (keys : List Int) (rows : List Row),
    keys.Nodup → (∀ r ∈ rows, r.date.y ∈ keys) →
    (keys.map (fun y => ((groupRows rows y).map f).sum)).sum = (rows.map f).sum
  | [], rows, _, hall => by
    cases rows with
    | nil => simp
    | cons r rs => exact absurd (hall r (List.mem_cons_self r rs)) (List.not_mem_nil _)
  | y :: keys, rows, hnd, hall => by
    have hperm := List.filter_append_perm (fun r => r.date.y == y) rows
    have hsplit : (rows.map f).sum =
        ((rows.filter (fun r => r.date.y == y)).map f).sum +
        ((rows.filter (fun r => !(r.date.y == y))).map f).sum := by
      rw [← List.Perm.sum_eq (hperm.map f), List.map_append, List.sum_append]
    have hgroups : ∀ y2 ∈ keys, groupRows rows y2 =
        groupRows (rows.filter (fun r => !(r.date.y == y))) y2 := by
      intro y2 hy2
      have hyne : y2 ≠ y := fun hcon =>
        (List.nodup_cons.mp hnd).1 (hcon ▸ hy2)
      rw [groupRows, groupRows, List.filter_filter]
      refine (List.filter_congr (fun r _ => ?_)).symm
      cases hr : (r.date.y == y2 : Bool) with
      | false => simp
      | true =>
        have hry : r.date.y = y2 := by simpa using hr
        simp [hry, hyne]
    have hall2 : ∀ r ∈ rows.filter (fun r => !(r.date.y == y)), r.date.y ∈ keys := by
      intro r hr
      have hmem := List.mem_of_mem_filter hr
      have hprop := List.of_mem_filter hr
      have hne : r.date.y ≠ y := by simpa using hprop
      rcases List.mem_cons.mp (hall r hmem) with hcon | hok
      · exact absurd hcon hne
      · exact hok
    have hmapeq : keys.map (fun y2 => ((groupRows rows y2).map f).sum) =
        keys.map (fun y2 => ((groupRows
          (rows.filter (fun r => !(r.date.y == y))) y2).map f).sum) :=
      List.map_congr_left (fun y2 hy2 => by rw [hgroups y2 hy2])
    rw [List.map_cons, List.sum_cons, hsplit, hmapeq,
      sum_over_groups f keys (rows.filter (fun r => !(r.date.y == y)))
        (List.nodup_cons.mp hnd).2 hall2]
    rfl

theorem length_roiAux (rows : List Row) : ∀ (ys : List Int) (a b : ℚ),
    (roiAux rows ys a b).length = ys.length
  | [], _, _ => rfl
  | y :: ys, a, b => by simp [roiAux, length_roiAux rows ys _ _]

theorem roiAux_getD (rows : List Row) : ∀ (ys : List Int) (accS accI : ℚ) (k : ℕ),
    k < ys.length →
    (roiAux rows ys accS accI).getD k default =
      ⟨ys.getD k 0,
        (accS + ((ys.take (k + 1)).map (fun y => groupShareSum rows y)).sum) *
          groupLastOpen rows (ys.getD k 0),
        accI + ((ys.take (k + 1)).map (fun y => groupInvSum rows y)).sum,
        (accS + ((ys.take (k + 1)).map (fun y => groupShareSum rows y)).sum) *
          groupLastOpen rows (ys.getD k 0) -
          (accI + ((ys.take (k + 1)).map (fun y => groupInvSum rows y)).sum),
        ((accS + ((ys.take (k + 1)).map (fun y => groupShareSum rows y)).sum) *
          groupLastOpen rows (ys.getD k 0) -
          (accI + ((ys.take (k + 1)).map (fun y => groupInvSum rows y)).sum)) /
          (accI + ((ys.take (k + 1)).map (fun y => groupInvSum rows y)).sum)⟩
  | [], _, _, k, hk => by simp at hk
  | y :: ys, accS, accI, 0, _ => by
    simp only [roiAux, List.getD_cons_zero, List.take_succ_cons, List.take_zero,
      List.map_cons, List.map_nil, List.sum_cons, List.sum_nil, add_zero]
  | y :: ys, accS, accI, k + 1, hk => by
    have step : (roiAux rows (y :: ys) accS accI).getD (k + 1) default =
        (roiAux rows ys (accS + groupShareSum rows y)
          (accI + groupInvSum rows y)).getD k default := rfl
    rw [step, roiAux_getD rows ys _ _ k (by simpa using hk)]
    simp only [List.getD_cons_succ, List.take_succ_cons, List.map_cons, List.sum_cons]
    congr 1 <;> ring_nf

theorem take_group_sum (f : Row → ℚ) (plan : List Row) (k : ℕ)
    (hk : k < (sortedYears plan).length) :
    (((sortedYears plan).take (k + 1)).map
      (fun y => ((groupRows plan y).map f).sum)).sum =
      ((plan.filter (fun r =>
        decide (r.date.y ≤ (sortedYears plan).getD k 0))).map f).sum := by
  rw [sorted_take_eq_filter (sortedYears plan) (sortedYears_pairwise_lt plan) k _ hk rfl]
  have hkeysnd : ((sortedYears plan).filter
      (fun a => decide (a ≤ (sortedYears plan).getD k 0))).Nodup :=
    List.Nodup.filter _ ((sortedYears_pairwise_lt plan).imp ne_of_lt)
  have hall : ∀ r ∈ plan.filter (fun r =>
      decide (r.date.y ≤ (sortedYears plan).getD k 0)),
      r.date.y ∈ (sortedYears plan).filter
        (fun a => decide (a ≤ (sortedYears plan).getD k 0)) := by
    intro r hr
    refine List.mem_filter.mpr ⟨?_, (List.mem_filter.mp hr).2⟩
    exact mem_sortedYears.mpr (List.mem_map_of_mem _ (List.mem_of_mem_filter hr))
  have hgr : ∀ y2 ∈ (sortedYears plan).filter
      (fun a => decide (a ≤ (sortedYears plan).getD k 0)),
      groupRows plan y2 = groupRows (plan.filter (fun r =>
        decide (r.date.y ≤ (sortedYears plan).getD k 0))) y2 := by
    intro y2 hy2
    have hy2le : y2 ≤ (sortedYears plan).getD k 0 := by
      simpa using List.of_mem_filter hy2
    rw [groupRows, groupRows, List.filter_filter]
    refine (List.filter_congr (fun r _ => ?_)).symm
    cases hr2 : (r.date.y == y2 : Bool) with
    | false => simp
    | true =>
      have hy : r.date.y = y2 := by simpa using hr2
      have hdec : decide (y2 ≤ (sortedYears plan).getD k 0) = true :=
        decide_eq_true hy2le
      simp [hy, hdec]
      exact List.getD_eq_getElem?_getD _ _ _ ▸ hy2le
  rw [List.map_congr_left (fun y2 hy2 => by rw [hgr y2 hy2])]
  exact sum_over_groups f _ _ hkeysnd hall

/-- C9: for every plan and every year in it, the evaluator returns
portfolioValue = (cumulative shares held through the end of that year) times
(that year's last recorded open price), cumulativeInvested = the running
total of investment amounts through that year, gain = portfolioValue -
cumulativeInvested, and roi = gain / cumulativeInvested; on the concrete
plan that invests 1000 and ends worth 1200 the evaluator returns gain 200
and roi exactly 0.20. -/
theorem roi_per_year :
    (∀ (plan : List Row) (k : ℕ), k < (compute_roi plan).length →
      ((compute_roi plan).getD k default).portfolio =
        ((plan.filter (fun r => decide (r.date.y ≤
          ((compute_roi plan).getD k default).year))).map Row.shareAmount).sum *
          groupLastOpen plan ((compute_roi plan).getD k default).year ∧
      ((compute_roi plan).getD k default).invested =
        ((plan.filter (fun r => decide (r.date.y ≤
          ((compute_roi plan).getD k default).year))).map
            (fun r => r.investmentAmount.getD 0)).sum ∧
      ((compute_roi plan).getD k default).win =
        ((compute_roi plan).getD k default).portfolio -
          ((compute_roi plan).getD k default).invested ∧
      ((compute_roi plan).getD k default).roi =
        ((compute_roi plan).getD k default).win /
          ((compute_roi plan).getD k default).invested) ∧
    compute_roi roiExampleRows = [⟨2000, 1200, 1000, 200, 1 / 5⟩] := by
  constructor
  · intro plan k hk
    have hk2 : k < (sortedYears plan).length := by
      rw [compute_roi, length_roiAux] at hk
      exact hk
    have hspec := roiAux_getD plan (sortedYears plan) 0 0 k hk2
    rw [compute_roi, hspec]
    have hS := take_group_sum Row.shareAmount plan k hk2
    have hI := take_group_sum (fun r => r.investmentAmount.getD 0) plan k hk2
    refine ⟨?_, ?_, rfl, rfl⟩
    · simp only [groupShareSum, zero_add]
      rw [hS]
    · simp only [groupInvSum, zero_add]
      rw [hI]
  · set_option maxRecDepth 8192 in exact (by with_unfolding_all decide)

/-- Witness for C9: the single-year entry of the concrete 1000-in,
1200-out plan satisfies the per-year equations. -/
theorem roi_per_year_witness :
    ((compute_roi roiExampleRows).getD 0 default).win =
      ((compute_roi roiExampleRows).getD 0 default).portfolio -
        ((compute_roi roiExampleRows).getD 0 default).invested ∧
    ((compute_roi roiExampleRows).getD 0 default).roi =
      ((compute_roi roiExampleRows).getD 0 default).win /
        ((compute_roi roiExampleRows).getD 0 default).invested :=
  ⟨(roi_per_year.1 roiExampleRows 0
      (by set_option maxRecDepth 8192 in with_unfolding_all decide)).2.2.1,
    (roi_per_year.1 roiExampleRows 0
      (by set_option maxRecDepth 8192 in with_unfolding_all decide)).2.2.2⟩
